import Mathlib

/-
Verification of the acecal bdeck ACE accumulator (src/main.rs).

The source is a single Rust file.  Lines of each input file are processed by
`process_bdeck_files`; the pure helpers are `is_tropical`, `is_synop_time`
and `get_basin`.  The embedding below models lines and file contents as
`List Char` (the inputs are ASCII, so Rust byte slicing coincides with
character slicing), Rust `i32` parsing as `parseI32`, the fragment of Rust
`f32` parsing exercised by the latitude/longitude fields as a rational
parser `parseF`, and the `HashMap<i32, PerBasinACE>` as an association
list.  Rust panics (`unwrap` failures, out-of-bounds slices) are modelled
by `Option.none`.
-/

namespace Acecal

/-- Characters [a, b) of a list, modelling Rust slice syntax `&s[a..b]`.
The Rust slice panics when `b` exceeds the length; the processing functions
below guard those cases with explicit length tests before slicing. -/
def sliceL (s : List Char) (a b : Nat) : List Char :=
  List.take (b - a) (List.drop a s)

/-- Value of a digit string, most significant digit first. -/
def digitsVal (s : List Char) : Nat :=
  s.foldl (fun a c => a * 10 + (c.toNat - 48)) 0

/-- All characters are ASCII digits. -/
def allDigits (s : List Char) : Bool :=
  s.all (fun c => c.isDigit)

/-- A nonempty all-digit string parses to its value; anything else fails. -/
def parseNatDigits (s : List Char) : Option Nat :=
  if (!s.isEmpty) && allDigits s then some (digitsVal s) else none

/-- Rust `str::parse::<i32>()`: optional sign, then one or more digits, and
the value must fit in `i32`; everything else (including whitespace) is an
error. -/
def parseI32 (s : List Char) : Option Int :=
  match s with
  | '+' :: r =>
    match parseNatDigits r with
    | some n => if n ≤ 2147483647 then some ((n : Int)) else none
    | none => none
  | '-' :: r =>
    match parseNatDigits r with
    | some n => if n ≤ 2147483648 then some (-((n : Int))) else none
    | none => none
  | _ =>
    match parseNatDigits s with
    | some n => if n ≤ 2147483647 then some ((n : Int)) else none
    | none => none

/-- Magnitude part of a decimal numeral: digits with an optional fraction
part, at least one digit overall. -/
def parseFMag (s : List Char) : Option ℚ :=
  match s.splitOn '.' with
  | [a] =>
    match parseNatDigits a with
    | some n => some ((n : ℚ))
    | none => none
  | [a, b] =>
    if (!(a.isEmpty && b.isEmpty)) && allDigits a && allDigits b then
      some ((digitsVal a : ℚ) + (digitsVal b : ℚ) / (10 : ℚ) ^ b.length)
    else none
  | _ => none

/-- Models the fragment of Rust `str::parse::<f32>()` exercised by the
bdeck latitude/longitude fields: optional sign, digits, optional decimal
fraction.  Exponent and inf/nan forms of the full Rust grammar are not
modelled, and the value is kept exact as a rational: the fields are at most
four digits in tenths of a degree, where `f32` rounding never crosses the
integer thresholds compared by `get_basin`. -/
def parseF (s : List Char) : Option ℚ :=
  match s with
  | '+' :: r => parseFMag r
  | '-' :: r => (parseFMag r).map (fun q => -q)
  | _ => parseFMag s

/-- Rust `str::lines` for ASCII text: split at newline characters, strip a
carriage return preceding each newline, with the final line ending
optional. -/
def stripCr (s : List Char) : List Char :=
  if s.getLast? = some (Char.ofNat 13) then s.dropLast else s

/-- Rust `str::lines` applied to a whole file. -/
def rustLines (cs : List Char) : List (List Char) :=
  let segs := cs.splitOn (Char.ofNat 10)
  if cs = [] then []
  else if cs.getLast? = some (Char.ofNat 10) then (segs.dropLast).map stripCr
  else ((segs.dropLast).map stripCr) ++ [segs.getLastD []]

/-- The five ocean basins (enum `Basin`, src/main.rs lines 82-88). -/
inductive Basin where
  | WPAC
  | NIO
  | SHEM
  | EPAC
  | ATL
deriving DecidableEq, Repr

/-- Per-basin accumulated energy (struct `PerBasinACE`, src/main.rs lines
7-14).  The Rust fields are `i32`; the embedding tracks the exact
(unbounded) accumulated values, which coincide with the `i32` fields only
while they stay below 2^31.  The `+=` accumulation (lines 25-33) can
overflow on reachable inputs - 22 maximal-wind fixes in one basin-year
already exceed `i32::MAX` - wrapping the field negative in a release build
and panicking in a debug build; `wrap32` and `update_ace32` below supply
the release-mode `i32` semantics where that overflow matters. -/
structure PerBasinACE where
  wpac : Int
  nio : Int
  shem : Int
  epac : Int
  atl : Int
deriving DecidableEq, Repr

/-- `PerBasinACE::default()`: all five fields zero. -/
def pbZero : PerBasinACE := ⟨0, 0, 0, 0, 0⟩

/-- `PerBasinACE::to_array` (src/main.rs lines 21-23). -/
def PerBasinACE.to_array (p : PerBasinACE) : List Int :=
  [p.wpac, p.nio, p.shem, p.epac, p.atl]

/-- `PerBasinACE::sum` (src/main.rs lines 17-19). -/
def PerBasinACE.sum (p : PerBasinACE) : Int :=
  p.to_array.sum

/-- `PerBasinACE::update_ace` (src/main.rs lines 25-33). -/
def PerBasinACE.update_ace (p : PerBasinACE) (basin : Basin) (ace : Int) :
    PerBasinACE :=
  match basin with
  | Basin.WPAC => { p with wpac := p.wpac + ace }
  | Basin.EPAC => { p with epac := p.epac + ace }
  | Basin.NIO => { p with nio := p.nio + ace }
  | Basin.SHEM => { p with shem := p.shem + ace }
  | Basin.ATL => { p with atl := p.atl + ace }

/-- `is_tropical` (src/main.rs lines 90-94): the storm type is not one of
the fixed non-tropical codes. -/
def non_tropical : List (List Char) :=
  [['S', 'D'], ['S', 'S'], ['L', 'O'], ['M', 'D'], ['E', 'X'], ['D', 'B'],
   ['E', 'T']]

/-- `is_tropical` (src/main.rs lines 90-94). -/
def is_tropical (storm_type : List Char) : Bool :=
  !(non_tropical.contains storm_type)

/-- `is_synop_time` (src/main.rs lines 96-99): parse the hour string (the
`unwrap` panic on parse failure is modelled by `none`) and test
divisibility by 6. -/
def is_synop_time (time_str : List Char) : Option Bool :=
  match parseI32 time_str with
  | none => none
  | some t => some (t % 6 == 0)

/-- `get_basin` (src/main.rs lines 101-128): the ordered decision tree
classifying a coordinate pair into a basin. -/
def get_basin (latitude longitude : ℚ) : Basin :=
  if latitude < 0 then Basin.SHEM
  else if longitude < 100 then
    (if latitude < 40 then Basin.NIO
     else (if longitude < 70 then Basin.ATL else Basin.WPAC))
  else if longitude ≤ 180 then Basin.WPAC
  else if longitude < 240 then Basin.EPAC
  else if longitude > 300 then Basin.ATL
  else Basin.EPAC

/-- Per-storm statistics (struct `StormStats`, src/main.rs lines 75-80). -/
structure StormStats where
  atcf_code : List Char
  max_wind : Int
  ace : PerBasinACE
deriving DecidableEq, Repr

/-- The `HashMap<i32, PerBasinACE>` of src/main.rs, modelled as an
association list; the code only inserts a key it has checked to be absent,
so keys stay unique. -/
abbrev YearMap := List (Int × PerBasinACE)

/-- `HashMap::contains_key`. -/
def containsKey (m : YearMap) (k : Int) : Bool :=
  m.any (fun e => e.1 == k)

/-- `HashMap::insert` of a fresh key (the code guards insertion with
`contains_key`). -/
def insertYM (m : YearMap) (k : Int) (v : PerBasinACE) : YearMap :=
  m ++ [(k, v)]

/-- `yearly_ace_map.get_mut(&year).unwrap()` followed by `update_ace`
(src/main.rs lines 214-215); `none` models the `unwrap` panic on a missing
key. -/
def addAceYM : YearMap → Int → Basin → Int → Option YearMap
  | [], _, _, _ => none
  | e :: r, k, basin, ace =>
    if e.1 = k then some ((e.1, e.2.update_ace basin ace) :: r)
    else
      match addAceYM r k basin ace with
      | none => none
      | some m => some (e :: m)

/-- Mutable state threaded through the per-line loop of
`process_bdeck_files`: the `last_time` string, the storm statistics under
construction, and the shared yearly map. -/
structure ProcState where
  lastTime : List Char
  ss : StormStats
  yearly : YearMap
deriving DecidableEq, Repr

/-- The southern-hemisphere season adjustment (src/main.rs lines 158-163):
add one to the year when the month is past June and the file basin code is
"SH". -/
def adjYear (atcf_basin : List Char) (year month : Int) : Int :=
  if 6 < month ∧ atcf_basin = ['S', 'H'] then year + 1 else year

/-- The wind field substring of a line (src/main.rs lines 167-174):
`line_len` is `line.len() - 1`, and the field is `&line[line_len - 3..]`
for short-style lines (`line_len < 51`) and `&line[48..51]` otherwise. -/
def windField (line : List Char) : List Char :=
  let line_len := line.length - 1
  if line_len < 51 then List.drop (line_len - 3) line
  else sliceL line 48 51

/-- `temp_wind.strip_prefix(" ").unwrap_or(temp_wind)`: drop one leading
space when present. -/
def stripOneSpace (s : List Char) : List Char :=
  match s with
  | ' ' :: r => r
  | _ => s

/-- The normalized wind of a line (src/main.rs lines 175-182): parse the
wind field after dropping one leading space, defaulting to 0 on parse
failure, and map the 999 sentinel to 0. -/
def windOf (line : List Char) : Int :=
  let w := (parseI32 (stripOneSpace (windField line))).getD 0
  if w = 999 then 0 else w

/-- The latitude of a line (src/main.rs lines 186-194): strip whitespace
from the first three characters of the field at [35,39), parse, divide by
10, negate on a trailing `S`. -/
def latOf (line : List Char) : Option ℚ :=
  let lat_str := sliceL line 35 39
  let lat_string := List.filter (fun c => !c.isWhitespace) (List.take 3 lat_str)
  match parseF lat_string with
  | none => none
  | some v => some (if sliceL lat_str 3 4 = ['S'] then -(v / 10) else v / 10)

/-- The longitude of a line (src/main.rs lines 195-203): strip whitespace
from the first four characters of the field at [41,46), parse, divide by
10, convert to `360 - value` on a trailing `W`. -/
def lonOf (line : List Char) : Option ℚ :=
  let lon_str := sliceL line 41 46
  let lon_string := List.filter (fun c => !c.isWhitespace) (List.take 4 lon_str)
  match parseF lon_string with
  | none => none
  | some v => some (if sliceL lon_str 4 5 = ['W'] then 360 - v / 10 else v / 10)

/-- The storm type of a line (src/main.rs lines 204-208): the field at
[59,61) when `line_len > 59`, otherwise the empty string. -/
def stormTypeOf (line : List Char) : List Char :=
  if line.length - 1 > 59 then sliceL line 59 61 else []

/-- One iteration of the per-line loop of `process_bdeck_files`
(src/main.rs lines 152-218).  `none` models a panic: an out-of-bounds
slice of the line, or an `unwrap` failure on the year, month, latitude,
longitude or synoptic-hour parse. -/
def processLine (bc : List Char) (st : ProcState) (line : List Char) :
    Option ProcState :=
  if line.length < 18 then none
  else
    let line_time := sliceL line 8 18
    if line_time = st.lastTime then some st
    else
      match parseI32 (List.take 4 line_time) with
      | none => none
      | some year0 =>
        match parseI32 (sliceL line_time 4 6) with
        | none => none
        | some month =>
          let year := adjYear bc year0 month
          let yearly1 :=
            if containsKey st.yearly year then st.yearly
            else insertYM st.yearly year pbZero
          let wind := windOf line
          let max_wind :=
            if st.ss.max_wind < wind then wind else st.ss.max_wind
          if line.length < 39 then none
          else
            match latOf line with
            | none => none
            | some latitude =>
              if line.length < 46 then none
              else
                match lonOf line with
                | none => none
                | some longitude =>
                  let storm_type := stormTypeOf line
                  match is_synop_time (sliceL line_time 8 10) with
                  | none => none
                  | some syn =>
                    let ss1 : StormStats :=
                      ⟨st.ss.atcf_code, max_wind, st.ss.ace⟩
                    if is_tropical storm_type && syn then
                      if 35 ≤ wind then
                        let basin := get_basin latitude longitude
                        let ace := wind ^ 2
                        let ss2 : StormStats :=
                          ⟨ss1.atcf_code, ss1.max_wind,
                           ss1.ace.update_ace basin ace⟩
                        match addAceYM yearly1 year basin ace with
                        | none => none
                        | some yearly2 => some ⟨line_time, ss2, yearly2⟩
                      else some ⟨line_time, ss1, yearly1⟩
                    else some ⟨line_time, ss1, yearly1⟩

/-- The per-line loop over the lines of one file. -/
def foldProcess (bc : List Char) : ProcState → List (List Char) →
    Option ProcState
  | st, [] => some st
  | st, line :: rest =>
    match processLine bc st line with
    | none => none
    | some st' => foldProcess bc st' rest

/-- Processing of one file (the body of the file loop of
`process_bdeck_files`, src/main.rs lines 144-219): read the ATCF code from
fixed offsets of the raw text, run the line loop from a fresh `StormStats`
and an empty `last_time`. -/
def processFile (ymap : YearMap) (text : List Char) :
    Option (StormStats × YearMap) :=
  if text.length < 6 then none
  else
    let atcf_basin := sliceL text 0 2
    let atcf_number := sliceL text 4 6
    match foldProcess atcf_basin
        ⟨[], ⟨atcf_basin ++ atcf_number, 0, pbZero⟩, ymap⟩
        (rustLines text) with
    | none => none
    | some st => some (st.ss, st.yearly)

/-- The file loop of `process_bdeck_files`, accumulating the storm list in
file order and threading the shared yearly map. -/
def processFiles (ymap : YearMap) (stats : List StormStats) :
    List (List Char) → Option (List StormStats × YearMap)
  | [] => some (stats, ymap)
  | f :: fs =>
    match processFile ymap f with
    | none => none
    | some (ss, ymap') => processFiles ymap' (stats ++ [ss]) fs

/-- `process_bdeck_files` (src/main.rs lines 141-222) on the contents of
the given files. -/
def process_bdeck_files (files : List (List Char)) :
    Option (List StormStats × YearMap) :=
  processFiles [] [] files

/-! ### A state-free view of one kept line

`LineData` collects everything a kept (non-duplicate) line contributes:
its timestamp, normalized wind, adjusted year, and the optional energy
contribution `(basin, wind²)`.  `processLine_eq` below proves that
`processLine` is exactly the application of this data to the running
state, which is the workhorse for all the aggregation claims. -/

/-- Data extracted from one kept line, independent of the running state. -/
structure LineData where
  time : List Char
  wind : Int
  year : Int
  contrib : Option (Basin × Int)
deriving DecidableEq, Repr

/-- Extraction of `LineData` from a line, mirroring the parse sequence and
panic points of the loop body. -/
def lineData (bc : List Char) (line : List Char) : Option LineData :=
  if line.length < 18 then none
  else
    let line_time := sliceL line 8 18
    match parseI32 (List.take 4 line_time) with
    | none => none
    | some year0 =>
      match parseI32 (sliceL line_time 4 6) with
      | none => none
      | some month =>
        if line.length < 39 then none
        else
          match latOf line with
          | none => none
          | some latitude =>
            if line.length < 46 then none
            else
              match lonOf line with
              | none => none
              | some longitude =>
                match is_synop_time (sliceL line_time 8 10) with
                | none => none
                | some syn =>
                  some
                    ⟨line_time, windOf line, adjYear bc year0 month,
                     if is_tropical (stormTypeOf line) && syn then
                       (if 35 ≤ windOf line then
                          some (get_basin latitude longitude, windOf line ^ 2)
                        else none)
                     else none⟩

/-- Apply an optional contribution to a `PerBasinACE`. -/
def applyContrib (p : PerBasinACE) (c : Option (Basin × Int)) : PerBasinACE :=
  match c with
  | none => p
  | some (b, a) => p.update_ace b a

/-- The guarded map insertion of src/main.rs lines 164-166. -/
def insertIfAbsent (m : YearMap) (k : Int) : YearMap :=
  if containsKey m k then m else insertYM m k pbZero

/-- The effect of one kept line on the yearly map: insert the year when
absent, then add the contribution to its entry. -/
def applyYearUpd (m : YearMap) (k : Int) (c : Option (Basin × Int)) :
    YearMap :=
  match c with
  | none => insertIfAbsent m k
  | some (b, a) => (addAceYM (insertIfAbsent m k) k b a).getD (insertIfAbsent m k)

/-- The effect of one kept line on the whole running state. -/
def stepKept (st : ProcState) (d : LineData) : ProcState :=
  ⟨d.time,
   ⟨st.ss.atcf_code,
    if st.ss.max_wind < d.wind then d.wind else st.ss.max_wind,
    applyContrib st.ss.ace d.contrib⟩,
   applyYearUpd st.yearly d.year d.contrib⟩

/-- Modelled from the spec: the ordered basin decision table of spec §4.2,
written as a relation so that "exactly one basin" can be stated; used only
to compare against the source function `get_basin`. -/
def basinSpecRel (lat lon : ℚ) (b : Basin) : Prop :=
  (lat < 0 ∧ b = Basin.SHEM) ∨
  (0 ≤ lat ∧ lon < 100 ∧ lat < 40 ∧ b = Basin.NIO) ∨
  (0 ≤ lat ∧ lon < 100 ∧ 40 ≤ lat ∧ lon < 70 ∧ b = Basin.ATL) ∨
  (0 ≤ lat ∧ lon < 100 ∧ 40 ≤ lat ∧ 70 ≤ lon ∧ b = Basin.WPAC) ∨
  (0 ≤ lat ∧ 100 ≤ lon ∧ lon ≤ 180 ∧ b = Basin.WPAC) ∨
  (0 ≤ lat ∧ 180 < lon ∧ lon < 240 ∧ b = Basin.EPAC) ∨
  (0 ≤ lat ∧ 180 < lon ∧ 300 < lon ∧ b = Basin.ATL) ∨
  (0 ≤ lat ∧ 180 < lon ∧ 240 ≤ lon ∧ lon ≤ 300 ∧ b = Basin.EPAC)

/-- The amount carried by an optional contribution. -/
def contribAmt (c : Option (Basin × Int)) : Int :=
  match c with
  | none => 0
  | some (_, a) => a

/-- Total energy stored in a yearly map. -/
def totalYM (m : YearMap) : Int :=
  (m.map (fun e => e.2.sum)).sum

/-- First entry of the map at a key, `pbZero` when absent. -/
def lookupPB : YearMap → Int → PerBasinACE
  | [], _ => pbZero
  | e :: r, k => if e.1 = k then e.2 else lookupPB r k

/-- Eligibility of a kept fix (src/main.rs line 209): tropical storm type
and synoptic hour a multiple of 6; `false` also when the hour fails to
parse (processing then aborts anyway). -/
def fixEligible (line : List Char) : Bool :=
  is_tropical (stormTypeOf line) &&
    ((is_synop_time (sliceL (sliceL line 8 18) 8 10)).getD false)

/-- Normalized winds of the kept (non-duplicate) lines, threading the
`last_time` comparison of the dedup check; no eligibility filtering. -/
def keptWinds (lt : List Char) : List (List Char) → List Int
  | [] => []
  | l :: ls =>
    if sliceL l 8 18 = lt then keptWinds lt ls
    else windOf l :: keptWinds (sliceL l 8 18) ls

/-- Fieldwise order on per-basin accumulators. -/
def pbLe (p q : PerBasinACE) : Prop :=
  p.wpac ≤ q.wpac ∧ p.nio ≤ q.nio ∧ p.shem ≤ q.shem ∧ p.epac ≤ q.epac ∧
    p.atl ≤ q.atl

/-- All five fields are nonnegative. -/
def pbNonneg (p : PerBasinACE) : Prop :=
  0 ≤ p.wpac ∧ 0 ≤ p.nio ∧ 0 ≤ p.shem ∧ 0 ≤ p.epac ∧ 0 ≤ p.atl

/-- A storm file's own contribution to a given year: the energy its solo
run (starting from an empty yearly map) leaves at that year. -/
def stormContribution (text : List Char) (y : Int) : Int :=
  match processFile [] text with
  | none => 0
  | some (_, m) => (lookupPB m y).sum

/-- A storm file's total contributed energy. -/
def stormTotal (text : List Char) : Int :=
  match processFile [] text with
  | none => 0
  | some (_, m) => totalYM m

/-- Concrete short-style test line (50 characters): ATCF header `WP, 01`,
timestamp 2023091200, latitude field `150N`, longitude field `1400E`, and
final characters ` 065` forming the short-style wind field. -/
def wLine : List Char :=
  ['W', 'P', ',', ' ', '0', '1', ',', ' ',
   '2', '0', '2', '3', '0', '9', '1', '2', '0', '0'] ++
  List.replicate 17 ' ' ++ ['1', '5', '0', 'N'] ++ [',', ' '] ++
  ['1', '4', '0', '0', 'E'] ++ [' ', '0', '6', '5']

/-- Concrete long-style test line (61 characters): wind field ` 65` at
[48,51) and storm type `TS` at [59,61). -/
def wLineTS : List Char :=
  List.take 46 wLine ++ [',', ' ', ' ', '6', '5', ','] ++
  List.replicate 7 ' ' ++ ['T', 'S']

/-- Concrete short-style test line whose wind field is the padded
sentinel ` 999`. -/
def wLine999 : List Char :=
  List.take 46 wLine ++ [' ', '9', '9', '9']

/-- Concrete one-line test file. -/
def wFile : List Char :=
  wLine ++ [Char.ofNat 10]

/-- The timestamp of `wLine`. -/
def wTime : List Char :=
  ['2', '0', '2', '3', '0', '9', '1', '2', '0', '0']

/-- Fresh state at the start of a `WP` file. -/
def wState : ProcState :=
  ⟨[], ⟨['W', 'P', '0', '1'], 0, pbZero⟩, []⟩

/-- Fresh state at the start of an `SH` file. -/
def wStateSH : ProcState :=
  ⟨[], ⟨['S', 'H', '0', '1'], 0, pbZero⟩, []⟩

/-- Fresh state whose `last_time` already equals the timestamp of
`wLine`. -/
def wStateDup : ProcState :=
  ⟨wTime, ⟨['W', 'P', '0', '1'], 0, pbZero⟩, []⟩

/-- Accumulator holding 4225 (= 65²) in the west Pacific. -/
def wPB : PerBasinACE :=
  ⟨4225, 0, 0, 0, 0⟩

/-- The state after processing `wLine` from `wState`. -/
def wStateOut : ProcState :=
  ⟨wTime, ⟨['W', 'P', '0', '1'], 65, wPB⟩, [(2023, wPB)]⟩

/-- The state after processing `wLine` from `wStateSH`: the basin code
`SH` with month 9 shifts the year key to 2024. -/
def wStateOutSH : ProcState :=
  ⟨wTime, ⟨['S', 'H', '0', '1'], 65, wPB⟩, [(2024, wPB)]⟩

/-- Fieldwise addition of accumulators. -/
def pbAdd (p q : PerBasinACE) : PerBasinACE :=
  ⟨p.wpac + q.wpac, p.nio + q.nio, p.shem + q.shem, p.epac + q.epac,
   p.atl + q.atl⟩

/-- Fieldwise total of all entries of a yearly map. -/
def totPB : YearMap → PerBasinACE
  | [] => pbZero
  | e :: r => pbAdd e.2 (totPB r)

/-- Two state changes add the identical amount to the same basin: the
fieldwise differences coincide. -/
def pbDeltaEq (p p' q q' : PerBasinACE) : Prop :=
  p'.wpac - p.wpac = q'.wpac - q.wpac ∧
  p'.nio - p.nio = q'.nio - q.nio ∧
  p'.shem - p.shem = q'.shem - q.shem ∧
  p'.epac - p.epac = q'.epac - q.epac ∧
  p'.atl - p.atl = q'.atl - q.atl

/-- Release-profile two's-complement result of a Rust `i32` addition: the
exact value wrapped into [-2^31, 2^31). -/
def wrap32 (x : Int) : Int :=
  (x + 2147483648) % 4294967296 - 2147483648

/-- `PerBasinACE::update_ace` (src/main.rs lines 25-33) under release-mode
`i32` semantics: the `+=` wraps on overflow (a debug build panics there
instead). -/
def PerBasinACE.update_ace32 (p : PerBasinACE) (basin : Basin) (ace : Int) :
    PerBasinACE :=
  match basin with
  | Basin.WPAC => { p with wpac := wrap32 (p.wpac + ace) }
  | Basin.EPAC => { p with epac := wrap32 (p.epac + ace) }
  | Basin.NIO => { p with nio := wrap32 (p.nio + ace) }
  | Basin.SHEM => { p with shem := wrap32 (p.shem + ace) }
  | Basin.ATL => { p with atl := wrap32 (p.atl + ace) }

/-- Concrete short-style maximal-wind line: `wLine` with wind field
`9998` (9998² = 99960004, just below the 4-character field maximum). -/
def wLine9998 : List Char :=
  List.take 46 wLine ++ ['9', '9', '9', '8']

/-- Concrete one-line file around `wLine9998`. -/
def wFile9998 : List Char :=
  wLine9998 ++ [Char.ofNat 10]

/-- The storm statistics produced by one `wFile9998`. -/
def ss9998 : StormStats :=
  ⟨['W', 'P', '0', '1'], 9998, ⟨99960004, 0, 0, 0, 0⟩⟩

theorem containsKey_insertYM_self (m : YearMap) (k : Int) :
    containsKey (insertYM m k pbZero) k = true := by
  simp [containsKey, insertYM]

theorem containsKey_insertIfAbsent (m : YearMap) (k : Int) :
    containsKey (insertIfAbsent m k) k = true := by
  unfold insertIfAbsent
  by_cases h : containsKey m k
  · simp [h]
  · simp only [h, if_false]
    exact containsKey_insertYM_self m k

theorem addAceYM_isSome_of_containsKey (m : YearMap) (k : Int) (b : Basin)
    (a : Int) (h : containsKey m k = true) :
    ∃ m', addAceYM m k b a = some m' := by
  induction m with
  | nil => simp [containsKey] at h
  | cons e r ih =>
    simp only [containsKey, List.any_cons, Bool.or_eq_true_iff, beq_iff_eq] at h
    by_cases hk : e.1 = k
    · refine ⟨(e.1, e.2.update_ace b a) :: r, ?_⟩
      simp [addAceYM, hk]
    · have hr : containsKey r k = true := by
        rcases h with h | h
        · exact absurd h hk
        · simpa [containsKey] using h
      obtain ⟨m', hm'⟩ := ih hr
      exact ⟨e :: m', by simp [addAceYM, hk, hm']⟩

/-- `processLine` equals skipping duplicates and otherwise applying the
state-free line data. -/
theorem processLine_eq (bc : List Char) (st : ProcState) (line : List Char) :
    processLine bc st line =
      (if line.length < 18 then none
       else if sliceL line 8 18 = st.lastTime then some st
       else Option.map (stepKept st) (lineData bc line)) := by
  by_cases h18 : line.length < 18
  · simp [processLine, lineData, h18]
  · by_cases hdup : sliceL line 8 18 = st.lastTime
    · simp [processLine, h18, hdup]
    · simp only [processLine, lineData, h18, hdup, if_false]
      cases hy : parseI32 (List.take 4 (sliceL line 8 18)) with
      | none => simp
      | some year0 =>
        cases hm : parseI32 (sliceL (sliceL line 8 18) 4 6) with
        | none => simp
        | some month =>
          simp only []
          by_cases h39 : line.length < 39
          · simp [h39]
          · simp only [h39, if_false]
            cases hlat : latOf line with
            | none => simp
            | some latitude =>
              by_cases h46 : line.length < 46
              · simp [h46]
              · simp only [h46, if_false]
                cases hlon : lonOf line with
                | none => simp
                | some longitude =>
                  cases hsyn : is_synop_time (sliceL (sliceL line 8 18) 8 10) with
                  | none => simp
                  | some syn =>
                    simp only [Option.map_some]
                    by_cases he : (is_tropical (stormTypeOf line) && syn) = true
                    · simp only [he, if_true]
                      by_cases hw : 35 ≤ windOf line
                      · simp only [hw, if_true]
                        obtain ⟨m', hm'⟩ :=
                          addAceYM_isSome_of_containsKey
                            (insertIfAbsent st.yearly
                              (adjYear bc year0 month))
                            (adjYear bc year0 month)
                            (get_basin latitude longitude)
                            (windOf line ^ 2)
                            (containsKey_insertIfAbsent _ _)
                        simp [stepKept, applyYearUpd, applyContrib,
                          insertIfAbsent] at hm' ⊢
                        split
                        · rename_i heq
                          rw [heq] at hm'
                          simp_all [stepKept, applyYearUpd, applyContrib]
                        · rename_i heq
                          rw [heq] at hm'
                          simp_all [stepKept, applyYearUpd, applyContrib]
                      · simp [hw, stepKept, applyYearUpd, applyContrib,
                          insertIfAbsent]
                    · simp [he, stepKept, applyYearUpd, applyContrib,
                        insertIfAbsent]

/-- All fields of a kept line's `LineData`, recovered from a successful
extraction. -/
theorem lineData_some (bc line : List Char) (d : LineData)
    (h : lineData bc line = some d) :
    d.time = sliceL line 8 18 ∧ d.wind = windOf line ∧
      ∃ year0 month latitude longitude syn,
        parseI32 (List.take 4 (sliceL line 8 18)) = some year0 ∧
        parseI32 (sliceL (sliceL line 8 18) 4 6) = some month ∧
        d.year = adjYear bc year0 month ∧
        latOf line = some latitude ∧ lonOf line = some longitude ∧
        is_synop_time (sliceL (sliceL line 8 18) 8 10) = some syn ∧
        d.contrib =
          (if is_tropical (stormTypeOf line) && syn then
             (if 35 ≤ windOf line then
                some (get_basin latitude longitude, windOf line ^ 2)
              else none)
           else none) := by
  unfold lineData at h
  by_cases h18 : line.length < 18
  · simp [h18] at h
  · simp only [h18, if_false] at h
    cases hy : parseI32 (List.take 4 (sliceL line 8 18)) with
    | none => rw [hy] at h; simp at h
    | some year0 =>
      rw [hy] at h
      cases hm : parseI32 (sliceL (sliceL line 8 18) 4 6) with
      | none => rw [hm] at h; simp at h
      | some month =>
        rw [hm] at h
        by_cases h39 : line.length < 39
        · simp [h39] at h
        · simp only [h39, if_false] at h
          cases hlat : latOf line with
          | none => rw [hlat] at h; simp at h
          | some latitude =>
            rw [hlat] at h
            by_cases h46 : line.length < 46
            · simp [h46] at h
            · simp only [h46, if_false] at h
              cases hlon : lonOf line with
              | none => rw [hlon] at h; simp at h
              | some longitude =>
                rw [hlon] at h
                cases hsyn : is_synop_time (sliceL (sliceL line 8 18) 8 10) with
                | none => rw [hsyn] at h; simp at h
                | some syn =>
                  rw [hsyn] at h
                  simp only [Option.some_inj] at h
                  subst h
                  refine ⟨rfl, rfl, year0, month, latitude, longitude, syn,
                    rfl, rfl, rfl, rfl, rfl, rfl, rfl⟩

/-! ### Claim C1: basin classification -/

/-- C1: for every latitude in [-90, 90] and longitude in [0, 360),
`get_basin` returns a basin, it satisfies the ordered decision table of the
spec, and it is the only basin doing so: classification is total and
deterministic and matches the decision tree. -/
theorem c1_basin_decision_tree (lat lon : ℚ)
    (_hlat1 : -90 ≤ lat) (_hlat2 : lat ≤ 90)
    (_hlon1 : 0 ≤ lon) (_hlon2 : lon < 360) :
    basinSpecRel lat lon (get_basin lat lon) ∧
      ∀ b : Basin, basinSpecRel lat lon b → b = get_basin lat lon := by
  constructor
  · unfold get_basin basinSpecRel
    split_ifs with h1 h2 h3 h4 h5 h6 h7
    · exact Or.inl ⟨h1, rfl⟩
    · exact Or.inr (Or.inl ⟨not_lt.mp h1, h2, h3, rfl⟩)
    · exact Or.inr (Or.inr (Or.inl ⟨not_lt.mp h1, h2, not_lt.mp h3, h4, rfl⟩))
    · exact Or.inr (Or.inr (Or.inr (Or.inl
        ⟨not_lt.mp h1, h2, not_lt.mp h3, not_lt.mp h4, rfl⟩)))
    · exact Or.inr (Or.inr (Or.inr (Or.inr (Or.inl
        ⟨not_lt.mp h1, not_lt.mp h2, h5, rfl⟩))))
    · exact Or.inr (Or.inr (Or.inr (Or.inr (Or.inr (Or.inl
        ⟨not_lt.mp h1, not_le.mp h5, h6, rfl⟩)))))
    · exact Or.inr (Or.inr (Or.inr (Or.inr (Or.inr (Or.inr (Or.inl
        ⟨not_lt.mp h1, not_le.mp h5, h7, rfl⟩))))))
    · exact Or.inr (Or.inr (Or.inr (Or.inr (Or.inr (Or.inr (Or.inr
        ⟨not_lt.mp h1, not_le.mp h5, not_lt.mp h6, not_lt.mp h7, rfl⟩))))))
  · intro b hb
    rcases hb with ⟨h, rfl⟩ | ⟨h0, h2, h3, rfl⟩ | ⟨h0, h2, h3, h4, rfl⟩ |
      ⟨h0, h2, h3, h4, rfl⟩ | ⟨h0, h2, h3, rfl⟩ | ⟨h0, h2, h3, rfl⟩ |
      ⟨h0, h2, h3, rfl⟩ | ⟨h0, h2, h3, h4, rfl⟩
    · simp [get_basin, h]
    · simp [get_basin, not_lt.mpr h0, h2, h3]
    · simp [get_basin, not_lt.mpr h0, h2, not_lt.mpr h3, h4]
    · simp [get_basin, not_lt.mpr h0, h2, not_lt.mpr h3, not_lt.mpr h4]
    · simp [get_basin, not_lt.mpr h0, not_lt.mpr h2, h3]
    · have hq : ¬ lon < 100 := not_lt.mpr (by linarith)
      simp [get_basin, not_lt.mpr h0, hq, not_le.mpr h2, h3]
    · have hq : ¬ lon < 100 := not_lt.mpr (by linarith)
      have hq2 : ¬ lon < 240 := not_lt.mpr (by linarith)
      simp [get_basin, not_lt.mpr h0, hq, not_le.mpr h2, hq2, h3]
    · have hq : ¬ lon < 100 := not_lt.mpr (by linarith)
      simp [get_basin, not_lt.mpr h0, hq, not_le.mpr h2, not_lt.mpr h3,
        not_lt.mpr h4]

/-- Witness for C1 at latitude 15, longitude 140: the returned basin
satisfies the table, and WPAC (which satisfies the table there) is that
basin. -/
theorem c1_basin_decision_tree_witness :
    basinSpecRel 15 140 (get_basin 15 140) ∧ Basin.WPAC = get_basin 15 140 :=
  ⟨(c1_basin_decision_tree 15 140 (by norm_num) (by norm_num) (by norm_num)
      (by norm_num)).1,
   (c1_basin_decision_tree 15 140 (by norm_num) (by norm_num) (by norm_num)
      (by norm_num)).2 Basin.WPAC (by unfold basinSpecRel; norm_num)⟩

/-! ### Claim C4: the wind field of short-style lines

The claim says the parsed field is the last 3 characters of the trimmed
line.  Rust's `str::lines` already strips the line ending, so with
`line_len = line.len() - 1` the slice `&line[line_len - 3..]` consists of
the last 4 characters of the trimmed line. -/

/-- Counterexample to C4: on a concrete short-style line the parsed wind
field is not the substring of the last 3 characters. -/
theorem c4_counterexample_last_three :
    windField ['A', 'B', 'C', 'D', 'E', 'F', 'G', 'H'] ≠
      List.drop (['A', 'B', 'C', 'D', 'E', 'F', 'G', 'H'].length - 3)
        ['A', 'B', 'C', 'D', 'E', 'F', 'G', 'H'] := by
  decide

/-- C4 (amended): for every short-style line (length < 52 after trimming
the line ending, and at least 4 characters long), the wind field that is
parsed is the substring consisting of the last 4 characters of the trimmed
line. -/
theorem c4_wind_field_short_lines (line : List Char)
    (h4 : 4 ≤ line.length) (h52 : line.length < 52) :
    windField line = List.drop (line.length - 4) line := by
  unfold windField
  have h : line.length - 1 - 3 = line.length - 4 := by omega
  rw [if_pos (by omega : line.length - 1 < 51), h]

/-- Witness for the amended C4 on a concrete 8-character line. -/
theorem c4_wind_field_short_lines_witness :
    windField ['A', 'B', 'C', 'D', 'E', 'F', 'G', 'H'] =
      List.drop (['A', 'B', 'C', 'D', 'E', 'F', 'G', 'H'].length - 4)
        ['A', 'B', 'C', 'D', 'E', 'F', 'G', 'H'] :=
  c4_wind_field_short_lines ['A', 'B', 'C', 'D', 'E', 'F', 'G', 'H']
    (by decide) (by decide)

/-! ### Helper lemmas about one processing step -/

/-- A duplicate-timestamp line is skipped: the state is returned
unchanged. -/
theorem processLine_skip (bc : List Char) (st : ProcState) (line : List Char)
    (h18 : 18 ≤ line.length) (hdup : sliceL line 8 18 = st.lastTime) :
    processLine bc st line = some st := by
  rw [processLine_eq]
  simp [Nat.not_lt.mpr h18, hdup]

/-- After any successful step the stored `last_time` is the line's
timestamp (on a skip it already was). -/
theorem processLine_some_lastTime (bc : List Char) (st st' : ProcState)
    (line : List Char) (h : processLine bc st line = some st') :
    st'.lastTime = sliceL line 8 18 := by
  rw [processLine_eq] at h
  by_cases h18 : line.length < 18
  · simp [h18] at h
  · rw [if_neg h18] at h
    by_cases hdup : sliceL line 8 18 = st.lastTime
    · rw [if_pos hdup] at h
      simp only [Option.some_inj] at h
      subst h
      exact hdup.symm
    · rw [if_neg hdup] at h
      cases hd : lineData bc line with
      | none => rw [hd] at h; simp at h
      | some d =>
        rw [hd] at h
        simp only [Option.map_some', Option.some_inj] at h
        subst h
        exact (lineData_some bc line d hd).1

/-- A successful non-duplicate step is the application of the line's
state-free data. -/
theorem processLine_kept_eq (bc : List Char) (st st' : ProcState)
    (line : List Char) (h : processLine bc st line = some st')
    (hdup : sliceL line 8 18 ≠ st.lastTime) :
    ∃ d, lineData bc line = some d ∧ st' = stepKept st d := by
  rw [processLine_eq] at h
  by_cases h18 : line.length < 18
  · simp [h18] at h
  · rw [if_neg h18, if_neg hdup] at h
    cases hd : lineData bc line with
    | none => rw [hd] at h; simp at h
    | some d =>
      rw [hd] at h
      simp only [Option.map_some', Option.some_inj] at h
      exact ⟨d, rfl, h.symm⟩

/-- `update_ace` adds its amount to the total. -/
theorem sum_update_ace (p : PerBasinACE) (b : Basin) (a : Int) :
    (p.update_ace b a).sum = p.sum + a := by
  cases b <;>
    simp [PerBasinACE.update_ace, PerBasinACE.sum, PerBasinACE.to_array] <;>
    ring

/-- `applyContrib` adds the contribution amount to the total. -/
theorem sum_applyContrib (p : PerBasinACE) (c : Option (Basin × Int)) :
    (applyContrib p c).sum = p.sum + contribAmt c := by
  cases c with
  | none => simp [applyContrib, contribAmt]
  | some ba =>
    obtain ⟨b, a⟩ := ba
    simp [applyContrib, contribAmt, sum_update_ace]

theorem totalYM_insertIfAbsent (m : YearMap) (k : Int) :
    totalYM (insertIfAbsent m k) = totalYM m := by
  unfold insertIfAbsent
  split
  · rfl
  · simp [totalYM, insertYM, pbZero, PerBasinACE.sum, PerBasinACE.to_array]

theorem totalYM_addAceYM (m m' : YearMap) (k : Int) (b : Basin) (a : Int)
    (h : addAceYM m k b a = some m') : totalYM m' = totalYM m + a := by
  induction m generalizing m' with
  | nil => simp [addAceYM] at h
  | cons e r ih =>
    simp only [addAceYM] at h
    by_cases hk : e.1 = k
    · rw [if_pos hk] at h
      simp only [Option.some_inj] at h
      subst h
      simp [totalYM, sum_update_ace]
      ring
    · rw [if_neg hk] at h
      cases hr : addAceYM r k b a with
      | none => rw [hr] at h; simp at h
      | some m₂ =>
        rw [hr] at h
        simp only [Option.some_inj] at h
        subst h
        have := ih m₂ hr
        simp [totalYM] at this ⊢
        rw [this]
        ring

theorem totalYM_applyYearUpd (m : YearMap) (k : Int)
    (c : Option (Basin × Int)) :
    totalYM (applyYearUpd m k c) = totalYM m + contribAmt c := by
  cases c with
  | none => simp [applyYearUpd, contribAmt, totalYM_insertIfAbsent]
  | some ba =>
    obtain ⟨b, a⟩ := ba
    obtain ⟨m', hm'⟩ :=
      addAceYM_isSome_of_containsKey (insertIfAbsent m k) k b a
        (containsKey_insertIfAbsent m k)
    simp only [applyYearUpd, hm', Option.getD_some, contribAmt]
    rw [totalYM_addAceYM _ _ _ _ _ hm', totalYM_insertIfAbsent]

theorem lookupPB_insertYM_zero (m : YearMap) (k : Int) (y : Int) :
    lookupPB (insertYM m k pbZero) y = lookupPB m y := by
  induction m with
  | nil =>
    simp only [insertYM, List.nil_append, lookupPB]
    split <;> rfl
  | cons e r ih =>
    simp only [insertYM, List.cons_append, lookupPB] at ih ⊢
    split
    · rfl
    · exact ih

theorem lookupPB_insertIfAbsent (m : YearMap) (k : Int) (y : Int) :
    lookupPB (insertIfAbsent m k) y = lookupPB m y := by
  unfold insertIfAbsent
  split
  · rfl
  · exact lookupPB_insertYM_zero m k y

theorem lookupPB_addAceYM (m m' : YearMap) (k : Int) (b : Basin) (a : Int)
    (h : addAceYM m k b a = some m') (y : Int) :
    lookupPB m' y =
      if k = y then (lookupPB m y).update_ace b a else lookupPB m y := by
  induction m generalizing m' with
  | nil => simp [addAceYM] at h
  | cons e r ih =>
    simp only [addAceYM] at h
    by_cases hk : e.1 = k
    · rw [if_pos hk] at h
      simp only [Option.some_inj] at h
      subst h
      by_cases hy : k = y
      · simp [lookupPB, hk, hy]
      · have hey : ¬ e.1 = y := fun hc => hy (hk.symm.trans hc)
        simp [lookupPB, hey, hy]
    · rw [if_neg hk] at h
      cases hr : addAceYM r k b a with
      | none => rw [hr] at h; simp at h
      | some m₂ =>
        rw [hr] at h
        simp only [Option.some_inj] at h
        subst h
        by_cases hey : e.1 = y
        · have hky : ¬ k = y := fun hc => hk (hey.trans hc.symm)
          simp [lookupPB, hey, hky]
        · simp [lookupPB, hey, ih m₂ hr]

theorem lookupPB_applyYearUpd (m : YearMap) (k : Int)
    (c : Option (Basin × Int)) (y : Int) :
    lookupPB (applyYearUpd m k c) y =
      if k = y then applyContrib (lookupPB m y) c else lookupPB m y := by
  cases c with
  | none =>
    simp only [applyYearUpd, applyContrib, lookupPB_insertIfAbsent]
    split <;> rfl
  | some ba =>
    obtain ⟨b, a⟩ := ba
    obtain ⟨m', hm'⟩ :=
      addAceYM_isSome_of_containsKey (insertIfAbsent m k) k b a
        (containsKey_insertIfAbsent m k)
    simp only [applyYearUpd, hm', Option.getD_some]
    rw [lookupPB_addAceYM _ _ _ _ _ hm' y, lookupPB_insertIfAbsent]
    rfl

theorem containsKey_addAceYM (m m' : YearMap) (k : Int) (b : Basin) (a : Int)
    (h : addAceYM m k b a = some m') (k' : Int) :
    containsKey m' k' = containsKey m k' := by
  induction m generalizing m' with
  | nil => simp [addAceYM] at h
  | cons e r ih =>
    simp only [addAceYM] at h
    by_cases hk : e.1 = k
    · rw [if_pos hk] at h
      simp only [Option.some_inj] at h
      subst h
      simp [containsKey]
    · rw [if_neg hk] at h
      cases hr : addAceYM r k b a with
      | none => rw [hr] at h; simp at h
      | some m₂ =>
        rw [hr] at h
        simp only [Option.some_inj] at h
        subst h
        have := ih m₂ hr
        simp [containsKey] at this ⊢
        rw [this]

theorem containsKey_applyYearUpd_self (m : YearMap) (k : Int)
    (c : Option (Basin × Int)) :
    containsKey (applyYearUpd m k c) k = true := by
  cases c with
  | none => exact containsKey_insertIfAbsent m k
  | some ba =>
    obtain ⟨b, a⟩ := ba
    obtain ⟨m', hm'⟩ :=
      addAceYM_isSome_of_containsKey (insertIfAbsent m k) k b a
        (containsKey_insertIfAbsent m k)
    simp only [applyYearUpd, hm', Option.getD_some]
    rw [containsKey_addAceYM _ _ _ _ _ hm' k]
    exact containsKey_insertIfAbsent m k

/-- The source's conditional maximum update is `max`. -/
theorem ite_max (a b : Int) : (if a < b then b else a) = max a b := by
  rcases le_or_lt b a with h | h
  · rw [if_neg (not_lt.mpr h), max_eq_left h]
  · rw [if_pos h, max_eq_right h.le]

/-- A string with a leading space never parses as an integer. -/
theorem parseI32_space (r : List Char) : parseI32 (' ' :: r) = none := by
  have hd : (' ').isDigit = false := by decide
  have h3 : parseNatDigits (' ' :: r) = none := by
    simp [parseNatDigits, allDigits, hd]
  simp [parseI32, h3]

/-! ### Evaluation of the concrete test lines

The latitude/longitude path goes through rational division, which the
kernel does not evaluate; the lemmas below first reduce everything else by
reflexivity, leaving the divisions symbolic, and then normalize them. -/

theorem lineData_wLine_raw :
    lineData ['W', 'P'] wLine =
      some ⟨wTime, 65, 2023,
        some (get_basin ((150 : ℚ) / 10) ((1400 : ℚ) / 10), 65 ^ 2)⟩ := by
  rfl

/-- The concrete line `wLine` extracts wind 65, year 2023 and a WPAC
contribution of 4225. -/
theorem lineData_wLine :
    lineData ['W', 'P'] wLine =
      some ⟨wTime, 65, 2023, some (Basin.WPAC, 4225)⟩ := by
  have e1 : (150 : ℚ) / 10 = 15 := by norm_num
  have e2 : (1400 : ℚ) / 10 = 140 := by norm_num
  rw [lineData_wLine_raw, e1, e2]
  decide

theorem lineData_wLineSH_raw :
    lineData ['S', 'H'] wLine =
      some ⟨wTime, 65, 2024,
        some (get_basin ((150 : ℚ) / 10) ((1400 : ℚ) / 10), 65 ^ 2)⟩ := by
  rfl

/-- Under basin code `SH` the same line keys year 2024. -/
theorem lineData_wLineSH :
    lineData ['S', 'H'] wLine =
      some ⟨wTime, 65, 2024, some (Basin.WPAC, 4225)⟩ := by
  have e1 : (150 : ℚ) / 10 = 15 := by norm_num
  have e2 : (1400 : ℚ) / 10 = 140 := by norm_num
  rw [lineData_wLineSH_raw, e1, e2]
  decide

/-- Concrete evaluation of one processing step on `wLine`. -/
theorem processLine_wLine :
    processLine ['W', 'P'] wState wLine = some wStateOut := by
  rw [processLine_eq, lineData_wLine]
  decide

/-- Concrete evaluation of one processing step on `wLine` with basin code
`SH`. -/
theorem processLine_wLineSH :
    processLine ['S', 'H'] wStateSH wLine = some wStateOutSH := by
  rw [processLine_eq, lineData_wLineSH]
  decide

/-- Concrete evaluation of the whole one-line file `wFile`. -/
theorem processFile_wFile :
    processFile [] wFile = some (wStateOut.ss, wStateOut.yearly) := by
  have h1 : rustLines wFile = [wLine] := by decide
  show (match foldProcess ['W', 'P'] wState (rustLines wFile) with
    | none => none
    | some st => some (st.ss, st.yearly)) = some (wStateOut.ss, wStateOut.yearly)
  rw [h1]
  simp only [foldProcess, processLine_wLine]

/-- Concrete evaluation of a whole run over the single file `wFile`. -/
theorem process_bdeck_files_wFile :
    process_bdeck_files [wFile] =
      some ([wStateOut.ss], wStateOut.yearly) := by
  show (match processFile [] wFile with
    | none => none
    | some (ss, ymap') => processFiles ymap' ([] ++ [ss]) []) =
      some ([wStateOut.ss], wStateOut.yearly)
  rw [processFile_wFile]
  simp only [processFiles, List.nil_append]

/-! ### Claim C3: deduplication by timestamp -/

/-- C3: a line whose timestamp substring at [8,18) equals the previous
kept line's timestamp is skipped entirely — the whole state (energy
accumulators, `max_wind`, year entries) is unchanged; and after a
successfully processed first line, a consecutive run of lines with the
same timestamp leaves the processing exactly where the first line left
it. -/
theorem c3_duplicate_lines_skipped :
    (∀ (bc : List Char) (st : ProcState) (line : List Char),
        18 ≤ line.length → sliceL line 8 18 = st.lastTime →
        processLine bc st line = some st) ∧
    (∀ (bc : List Char) (st st₁ : ProcState) (line : List Char)
        (rest : List (List Char)),
        processLine bc st line = some st₁ →
        (∀ l ∈ rest, 18 ≤ l.length ∧ sliceL l 8 18 = sliceL line 8 18) →
        foldProcess bc st (line :: rest) = processLine bc st line) := by
  constructor
  · exact processLine_skip
  · intro bc st st₁ line rest h hall
    have hlt : st₁.lastTime = sliceL line 8 18 :=
      processLine_some_lastTime bc st st₁ line h
    simp only [foldProcess, h]
    induction rest with
    | nil => rfl
    | cons l ls ih =>
      have hl := hall l (by simp)
      have hskip : processLine bc st₁ l = some st₁ :=
        processLine_skip bc st₁ l hl.1 (hl.2.trans hlt.symm)
      simp only [foldProcess, hskip]
      exact ih fun l' hl' => hall l' (by simp [hl'])

/-- Witness for C3: the duplicate of a concrete kept line is skipped, and
a file consisting of a kept line followed by its duplicate processes
exactly as the kept line alone. -/
theorem c3_duplicate_lines_skipped_witness :
    processLine ['W', 'P'] wStateDup wLine = some wStateDup ∧
      foldProcess ['W', 'P'] wState [wLine, wLine] =
        processLine ['W', 'P'] wState wLine := by
  constructor
  · exact c3_duplicate_lines_skipped.1 ['W', 'P'] wStateDup wLine (by decide)
      (by decide)
  · exact c3_duplicate_lines_skipped.2 ['W', 'P'] wState wStateOut wLine
      [wLine] processLine_wLine (by decide)

/-! ### Claim C2: energy contribution of a kept fix -/

/-- C2: for every kept (non-duplicate) fix, both the storm accumulator
total and the yearly map total grow by wind squared exactly when the fix
is eligible (tropical storm type and synoptic hour a multiple of 6) and
the normalized wind is at least 35; otherwise they grow by 0. -/
theorem c2_energy_exactly_when_eligible (bc : List Char) (st st' : ProcState)
    (line : List Char) (h : processLine bc st line = some st')
    (hkept : sliceL line 8 18 ≠ st.lastTime) :
    PerBasinACE.sum st'.ss.ace =
      PerBasinACE.sum st.ss.ace +
        (if fixEligible line = true ∧ 35 ≤ windOf line then windOf line ^ 2
         else 0) ∧
    totalYM st'.yearly =
      totalYM st.yearly +
        (if fixEligible line = true ∧ 35 ≤ windOf line then windOf line ^ 2
         else 0) := by
  obtain ⟨d, hd, rfl⟩ := processLine_kept_eq bc st st' line h hkept
  obtain ⟨ht, hw, year0, month, latitude, longitude, syn, hy, hm, hyr, hlat,
    hlon, hsyn, hc⟩ := lineData_some bc line d hd
  have hfix : fixEligible line = (is_tropical (stormTypeOf line) && syn) := by
    unfold fixEligible
    rw [hsyn]
    rfl
  have hamt : contribAmt d.contrib =
      (if fixEligible line = true ∧ 35 ≤ windOf line then windOf line ^ 2
       else 0) := by
    rw [hc, hfix]
    by_cases he : (is_tropical (stormTypeOf line) && syn) = true
    · by_cases h35 : 35 ≤ windOf line
      · simp [he, h35, contribAmt]
      · simp [he, h35, contribAmt]
    · simp [he, contribAmt]
  constructor
  · show PerBasinACE.sum (applyContrib st.ss.ace d.contrib) = _
    rw [sum_applyContrib, hamt]
  · show totalYM (applyYearUpd st.yearly d.year d.contrib) = _
    rw [totalYM_applyYearUpd, hamt]

/-- Witness for C2 on the concrete eligible line `wLine` (wind 65,
synoptic hour 00, empty storm type): both totals grow by 65² = 4225. -/
theorem c2_energy_exactly_when_eligible_witness :
    PerBasinACE.sum wStateOut.ss.ace =
      PerBasinACE.sum wState.ss.ace +
        (if fixEligible wLine = true ∧ 35 ≤ windOf wLine then
           windOf wLine ^ 2
         else 0) ∧
    totalYM wStateOut.yearly =
      totalYM wState.yearly +
        (if fixEligible wLine = true ∧ 35 ≤ windOf wLine then
           windOf wLine ^ 2
         else 0) :=
  c2_energy_exactly_when_eligible ['W', 'P'] wState wStateOut wLine
    processLine_wLine (by decide)

/-! ### Claim C5: southern-hemisphere year adjustment -/

/-- C5: the year keying the yearly accumulator is the parsed timestamp
year incremented by 1 exactly when the basin code is `SH` and the parsed
month exceeds 6; otherwise it is used unchanged; and for every kept fix
the yearly map holds an entry for that adjusted year. -/
theorem c5_year_adjustment :
    (∀ (bc : List Char) (y m : Int),
        bc = ['S', 'H'] ∧ 6 < m → adjYear bc y m = y + 1) ∧
    (∀ (bc : List Char) (y m : Int),
        m ≤ 6 ∨ bc ≠ ['S', 'H'] → adjYear bc y m = y) ∧
    (∀ (bc : List Char) (st st' : ProcState) (line : List Char) (y m : Int),
        processLine bc st line = some st' →
        sliceL line 8 18 ≠ st.lastTime →
        parseI32 (List.take 4 (sliceL line 8 18)) = some y →
        parseI32 (sliceL (sliceL line 8 18) 4 6) = some m →
        containsKey st'.yearly (adjYear bc y m) = true) := by
  refine ⟨?_, ?_, ?_⟩
  · rintro bc y m ⟨hb, hm⟩
    simp [adjYear, hb, hm]
  · intro bc y m h
    unfold adjYear
    rw [if_neg]
    rintro ⟨h6, hb⟩
    rcases h with h | h
    · omega
    · exact h hb
  · intro bc st st' line y m h hkept hy hm
    obtain ⟨d, hd, rfl⟩ := processLine_kept_eq bc st st' line h hkept
    obtain ⟨_, _, year0, month, latitude, longitude, syn, hy', hm', hyr, _,
      _, _, _⟩ := lineData_some bc line d hd
    rw [hy] at hy'
    rw [hm] at hm'
    obtain rfl : y = year0 := by simpa using hy'
    obtain rfl : m = month := by simpa using hm'
    show containsKey (applyYearUpd st.yearly d.year d.contrib) _ = true
    rw [hyr]
    exact containsKey_applyYearUpd_self st.yearly (adjYear bc y m) d.contrib

/-- Witness for C5: month 9 with basin `SH` keys year 2024 (2023 + 1) on
the concrete line, and the two pure cases at concrete values. -/
theorem c5_year_adjustment_witness :
    adjYear ['S', 'H'] 2023 9 = 2024 ∧ adjYear ['W', 'P'] 2023 9 = 2023 ∧
      containsKey wStateOutSH.yearly (adjYear ['S', 'H'] 2023 9) = true := by
  refine ⟨?_, ?_, ?_⟩
  · exact c5_year_adjustment.1 ['S', 'H'] 2023 9 ⟨rfl, by norm_num⟩
  · exact c5_year_adjustment.2.1 ['W', 'P'] 2023 9 (Or.inr (by decide))
  · exact c5_year_adjustment.2.2 ['S', 'H'] wStateSH wStateOutSH wLine 2023 9
      processLine_wLineSH (by decide) (by decide) (by decide)

/-! ### Claim C6: wind parse failure and sentinel normalization -/

/-- C6: the wind used downstream is 0 whenever the extracted field fails
to parse after stripping one leading space and whenever it parses to the
sentinel 999 — with any amount of leading-space padding around `999` —
and the `max_wind` update sees exactly this normalized wind. -/
theorem c6_wind_normalization :
    (∀ line : List Char,
        parseI32 (stripOneSpace (windField line)) = none → windOf line = 0) ∧
    (∀ line : List Char,
        parseI32 (stripOneSpace (windField line)) = some 999 →
        windOf line = 0) ∧
    (∀ (line : List Char) (n : Nat),
        windField line = List.replicate n ' ' ++ ['9', '9', '9'] →
        windOf line = 0) ∧
    (∀ (bc : List Char) (st st' : ProcState) (line : List Char),
        processLine bc st line = some st' → sliceL line 8 18 ≠ st.lastTime →
        st'.ss.max_wind = max st.ss.max_wind (windOf line)) := by
  refine ⟨?_, ?_, ?_, ?_⟩
  · intro line h
    simp [windOf, h]
  · intro line h
    simp [windOf, h]
  · intro line n hf
    match n with
    | 0 =>
      simp only [List.replicate, List.nil_append] at hf
      simp only [windOf, hf]
      decide
    | 1 =>
      simp only [List.replicate, List.nil_append] at hf
      simp only [windOf, hf]
      decide
    | Nat.succ (Nat.succ k) =>
      have hs : stripOneSpace (windField line) =
          List.replicate (k + 1) ' ' ++ ['9', '9', '9'] := by
        rw [hf]
        rfl
      have hp : parseI32 (stripOneSpace (windField line)) = none := by
        rw [hs]
        show parseI32 (' ' :: (List.replicate k ' ' ++ ['9', '9', '9'])) = none
        exact parseI32_space _
      simp [windOf, hp]
  · intro bc st st' line h hkept
    obtain ⟨d, hd, rfl⟩ := processLine_kept_eq bc st st' line h hkept
    have hw : d.wind = windOf line := (lineData_some bc line d hd).2.1
    show (if st.ss.max_wind < d.wind then d.wind else st.ss.max_wind) = _
    rw [hw, ite_max]

/-- Witness for C6 on the concrete sentinel line `wLine999` (field
` 999`, one space of padding) and the concrete kept line `wLine`. -/
theorem c6_wind_normalization_witness :
    windOf wLine999 = 0 ∧
      wStateOut.ss.max_wind = max wState.ss.max_wind (windOf wLine) := by
  constructor
  · exact c6_wind_normalization.2.2.1 wLine999 1 (by decide)
  · exact c6_wind_normalization.2.2.2 ['W', 'P'] wState wStateOut wLine
      processLine_wLine (by decide)

/-! ### Claim C10: short lines carry no storm type and pass the filter -/

/-- C10: a line of trimmed length at most 60 has the empty storm type,
the empty storm type passes the tropical test, and hence every kept fix
from such a line at a synoptic hour with normalized wind at least 35
contributes its full wind-squared energy — no storm-type filtering is
possible for such lines. -/
theorem c10_short_lines_no_type_filter :
    (∀ line : List Char, line.length ≤ 60 → stormTypeOf line = []) ∧
    is_tropical [] = true ∧
    (∀ (bc : List Char) (st st' : ProcState) (line : List Char),
        processLine bc st line = some st' → sliceL line 8 18 ≠ st.lastTime →
        line.length ≤ 60 →
        is_synop_time (sliceL (sliceL line 8 18) 8 10) = some true →
        35 ≤ windOf line →
        PerBasinACE.sum st'.ss.ace =
          PerBasinACE.sum st.ss.ace + windOf line ^ 2) := by
  refine ⟨?_, by decide, ?_⟩
  · intro line hlen
    unfold stormTypeOf
    rw [if_neg]
    omega
  · intro bc st st' line h hkept hlen hsynop h35
    obtain ⟨d, hd, rfl⟩ := processLine_kept_eq bc st st' line h hkept
    obtain ⟨ht, hw, year0, month, latitude, longitude, syn, hy, hm, hyr,
      hlat, hlon, hsyn, hc⟩ := lineData_some bc line d hd
    rw [hsynop] at hsyn
    obtain rfl : syn = true := by simpa using hsyn.symm
    have hst : stormTypeOf line = [] := by
      unfold stormTypeOf
      rw [if_neg]
      omega
    have htrop : is_tropical (stormTypeOf line) = true := by
      rw [hst]
      decide
    have hcontrib : d.contrib =
        some (get_basin latitude longitude, windOf line ^ 2) := by
      rw [hc, htrop]
      simp [h35]
    show PerBasinACE.sum (applyContrib st.ss.ace d.contrib) = _
    rw [hcontrib]
    simp only [applyContrib]
    rw [sum_update_ace]

/-- Witness for C10 on the concrete 50-character line `wLine` (no storm
type field, synoptic hour 00, wind 65): the storm total grows by 4225. -/
theorem c10_short_lines_no_type_filter_witness :
    PerBasinACE.sum wStateOut.ss.ace =
      PerBasinACE.sum wState.ss.ace + windOf wLine ^ 2 :=
  c10_short_lines_no_type_filter.2.2 ['W', 'P'] wState wStateOut wLine
    processLine_wLine (by decide) (by decide) (by decide) (by decide)

/-! ### Claim C8: max_wind is the maximum over all kept fixes -/

/-- A successful step on a duplicate-timestamp line leaves the state
unchanged. -/
theorem processLine_dup_eq (bc : List Char) (st st₁ : ProcState)
    (l : List Char) (hp : processLine bc st l = some st₁)
    (hdup : sliceL l 8 18 = st.lastTime) : st₁ = st := by
  rw [processLine_eq] at hp
  by_cases h18 : l.length < 18
  · simp [h18] at hp
  · rw [if_neg h18, if_pos hdup] at hp
    simpa using hp.symm

/-- The line loop folds `max` of the kept lines' normalized winds over the
incoming maximum. -/
theorem foldProcess_maxWind (bc : List Char) (lines : List (List Char)) :
    ∀ (st st' : ProcState), foldProcess bc st lines = some st' →
      st'.ss.max_wind =
        (keptWinds st.lastTime lines).foldl max st.ss.max_wind := by
  induction lines with
  | nil =>
    intro st st' h
    simp only [foldProcess, Option.some_inj] at h
    subst h
    simp [keptWinds]
  | cons l ls ih =>
    intro st st' h
    simp only [foldProcess] at h
    cases hp : processLine bc st l with
    | none => rw [hp] at h; simp at h
    | some st₁ =>
      rw [hp] at h
      by_cases hdup : sliceL l 8 18 = st.lastTime
      · have he : st₁ = st := processLine_dup_eq bc st st₁ l hp hdup
        rw [he] at h
        rw [show keptWinds st.lastTime (l :: ls) =
          keptWinds st.lastTime ls from by
            simp only [keptWinds]
            rw [if_pos hdup]]
        exact ih st st' h
      · obtain ⟨d, hd, rfl⟩ := processLine_kept_eq bc st st₁ l hp hdup
        have hw : d.wind = windOf l := (lineData_some bc l d hd).2.1
        have htime : d.time = sliceL l 8 18 := (lineData_some bc l d hd).1
        have hmax : (stepKept st d).ss.max_wind =
            max st.ss.max_wind (windOf l) := by
          show (if st.ss.max_wind < d.wind then d.wind else st.ss.max_wind) = _
          rw [hw, ite_max]
        have hlt : (stepKept st d).lastTime = sliceL l 8 18 := by
          show d.time = _
          exact htime
        rw [show keptWinds st.lastTime (l :: ls) =
          windOf l :: keptWinds (sliceL l 8 18) ls from by
            simp only [keptWinds]
            rw [if_neg hdup]]
        rw [List.foldl_cons]
        have := ih (stepKept st d) st' h
        rw [hlt, hmax] at this
        exact this

/-- C8: the final `max_wind` of a file's `StormStats` is the maximum of 0
and the normalized winds of all kept (non-duplicate) fixes, with no
storm-type, synoptic-hour, or 35-knot filtering. -/
theorem c8_max_wind_over_all_kept (ymap ymap' : YearMap) (text : List Char)
    (ss : StormStats) (h : processFile ymap text = some (ss, ymap')) :
    ss.max_wind = (keptWinds [] (rustLines text)).foldl max 0 := by
  simp only [processFile] at h
  by_cases h6 : text.length < 6
  · simp [h6] at h
  · rw [if_neg h6] at h
    cases hf : foldProcess (sliceL text 0 2)
        ⟨[], ⟨sliceL text 0 2 ++ sliceL text 4 6, 0, pbZero⟩, ymap⟩
        (rustLines text) with
    | none => rw [hf] at h; simp at h
    | some st =>
      rw [hf] at h
      simp only [Option.some_inj, Prod.mk.injEq] at h
      obtain ⟨hss, _⟩ := h
      subst hss
      exact foldProcess_maxWind (sliceL text 0 2) (rustLines text) _ st hf

/-- Witness for C8 on the concrete one-line file `wFile`: max_wind 65. -/
theorem c8_max_wind_over_all_kept_witness :
    wStateOut.ss.max_wind = (keptWinds [] (rustLines wFile)).foldl max 0 :=
  c8_max_wind_over_all_kept [] wStateOut.yearly wFile wStateOut.ss
    processFile_wFile

/-! ### Claim C9: accumulators in exact arithmetic, and i32 overflow

In exact integer arithmetic the accumulators are monotone and
nonnegative; the Rust `i32` fields realize the exact values only while
they stay below 2^31, and the overflow counterexample at the end of the
file shows a reachable run where they do not. -/

theorem pbLe_refl (p : PerBasinACE) : pbLe p p := by
  unfold pbLe
  omega

/-- Every contribution stored by `lineData` is wind squared with wind at
least 35. -/
theorem lineData_contrib_form (bc line : List Char) (d : LineData)
    (b : Basin) (a : Int) (hd : lineData bc line = some d)
    (hba : d.contrib = some (b, a)) :
    a = windOf line ^ 2 ∧ 35 ≤ windOf line := by
  obtain ⟨_, _, year0, month, latitude, longitude, syn, _, _, _, _, _, _,
    hc⟩ := lineData_some bc line d hd
  rw [hc] at hba
  by_cases he : (is_tropical (stormTypeOf line) && syn) = true
  · rw [if_pos he] at hba
    by_cases h35 : 35 ≤ windOf line
    · rw [if_pos h35] at hba
      simp only [Option.some_inj, Prod.mk.injEq] at hba
      exact ⟨hba.2.symm, h35⟩
    · rw [if_neg h35] at hba
      simp at hba
  · rw [if_neg he] at hba
    simp at hba

theorem pbLe_update_ace (p : PerBasinACE) (b : Basin) (a : Int)
    (ha : 0 ≤ a) : pbLe p (p.update_ace b a) := by
  cases b <;> simp [PerBasinACE.update_ace, pbLe] <;> omega

theorem pbNonneg_update_ace (p : PerBasinACE) (b : Basin) (a : Int)
    (hp : pbNonneg p) (ha : 0 ≤ a) : pbNonneg (p.update_ace b a) := by
  obtain ⟨h1, h2, h3, h4, h5⟩ := hp
  cases b <;> simp [PerBasinACE.update_ace, pbNonneg] <;> omega

theorem pbLe_applyContrib (p : PerBasinACE) (c : Option (Basin × Int))
    (hc : ∀ b a, c = some (b, a) → 0 ≤ a) : pbLe p (applyContrib p c) := by
  cases c with
  | none => exact pbLe_refl p
  | some ba =>
    obtain ⟨b, a⟩ := ba
    exact pbLe_update_ace p b a (hc b a rfl)

theorem pbNonneg_applyContrib (p : PerBasinACE) (c : Option (Basin × Int))
    (hp : pbNonneg p) (hc : ∀ b a, c = some (b, a) → 0 ≤ a) :
    pbNonneg (applyContrib p c) := by
  cases c with
  | none => exact hp
  | some ba =>
    obtain ⟨b, a⟩ := ba
    exact pbNonneg_update_ace p b a hp (hc b a rfl)

theorem pbNonneg_pbZero : pbNonneg pbZero := by
  simp [pbNonneg, pbZero]

theorem pbLe_lookupPB_applyYearUpd (m : YearMap) (k : Int)
    (c : Option (Basin × Int)) (y : Int)
    (hc : ∀ b a, c = some (b, a) → 0 ≤ a) :
    pbLe (lookupPB m y) (lookupPB (applyYearUpd m k c) y) := by
  rw [lookupPB_applyYearUpd]
  by_cases hk : k = y
  · rw [if_pos hk]
    exact pbLe_applyContrib _ c hc
  · rw [if_neg hk]
    exact pbLe_refl _

theorem mem_insertIfAbsent (m : YearMap) (k : Int) (e : Int × PerBasinACE)
    (h : e ∈ insertIfAbsent m k) : e ∈ m ∨ e = (k, pbZero) := by
  unfold insertIfAbsent at h
  by_cases hk : containsKey m k
  · rw [if_pos hk] at h
    exact Or.inl h
  · rw [if_neg hk] at h
    unfold insertYM at h
    rcases List.mem_append.mp h with h | h
    · exact Or.inl h
    · simp at h
      exact Or.inr h

theorem mem_addAceYM (m m' : YearMap) (k : Int) (b : Basin) (a : Int)
    (h : addAceYM m k b a = some m') (e : Int × PerBasinACE) (he : e ∈ m') :
    e ∈ m ∨ ∃ p, (e.1, p) ∈ m ∧ e.2 = p.update_ace b a := by
  induction m generalizing m' with
  | nil => simp [addAceYM] at h
  | cons f r ih =>
    simp only [addAceYM] at h
    by_cases hk : f.1 = k
    · rw [if_pos hk] at h
      simp only [Option.some_inj] at h
      subst h
      rcases List.mem_cons.mp he with he | he
      · right
        refine ⟨f.2, ?_, ?_⟩
        · rw [he]
          exact List.mem_cons_self _ _
        · rw [he]
      · exact Or.inl (List.mem_cons_of_mem _ he)
    · rw [if_neg hk] at h
      cases hr : addAceYM r k b a with
      | none => rw [hr] at h; simp at h
      | some m₂ =>
        rw [hr] at h
        simp only [Option.some_inj] at h
        subst h
        rcases List.mem_cons.mp he with he | he
        · exact Or.inl (by rw [he]; exact List.mem_cons_self _ _)
        · rcases ih m₂ hr he with h' | ⟨p, hp, hep⟩
          · exact Or.inl (List.mem_cons_of_mem _ h')
          · exact Or.inr ⟨p, List.mem_cons_of_mem _ hp, hep⟩

theorem entries_nonneg_applyYearUpd (m : YearMap) (k : Int)
    (c : Option (Basin × Int)) (hm : ∀ e ∈ m, pbNonneg e.2)
    (hc : ∀ b a, c = some (b, a) → 0 ≤ a) :
    ∀ e ∈ applyYearUpd m k c, pbNonneg e.2 := by
  have hins : ∀ e ∈ insertIfAbsent m k, pbNonneg e.2 := by
    intro e he
    rcases mem_insertIfAbsent m k e he with he | he
    · exact hm e he
    · rw [he]
      exact pbNonneg_pbZero
  cases c with
  | none => exact hins
  | some ba =>
    obtain ⟨b, a⟩ := ba
    obtain ⟨m', hm'⟩ :=
      addAceYM_isSome_of_containsKey (insertIfAbsent m k) k b a
        (containsKey_insertIfAbsent m k)
    intro e he
    simp only [applyYearUpd, hm', Option.getD_some] at he
    rcases mem_addAceYM _ m' k b a hm' e he with he' | ⟨p, hp, hep⟩
    · exact hins e he'
    · rw [hep]
      exact pbNonneg_update_ace p b a (hins (e.1, p) hp) (hc b a rfl)

/-- Contributions of successful lines never subtract. -/
theorem processLine_contrib_nonneg (bc line : List Char) (d : LineData)
    (hd : lineData bc line = some d) :
    ∀ b a, d.contrib = some (b, a) → 0 ≤ a := by
  intro b a hba
  obtain ⟨ha, _⟩ := lineData_contrib_form bc line d b a hd hba
  rw [ha]
  exact sq_nonneg _

/-- One step never decreases any accumulator field. -/
theorem processLine_mono (bc : List Char) (st st' : ProcState)
    (line : List Char) (h : processLine bc st line = some st') :
    pbLe st.ss.ace st'.ss.ace ∧
      ∀ y : Int, pbLe (lookupPB st.yearly y) (lookupPB st'.yearly y) := by
  by_cases hdup : sliceL line 8 18 = st.lastTime
  · have he : st' = st := processLine_dup_eq bc st st' line h hdup
    rw [he]
    exact ⟨pbLe_refl _, fun y => pbLe_refl _⟩
  · obtain ⟨d, hd, rfl⟩ := processLine_kept_eq bc st st' line h hdup
    have hc := processLine_contrib_nonneg bc line d hd
    constructor
    · exact pbLe_applyContrib st.ss.ace d.contrib hc
    · intro y
      exact pbLe_lookupPB_applyYearUpd st.yearly d.year d.contrib y hc

/-- One step preserves nonnegativity of all accumulators. -/
theorem processLine_entries_nonneg (bc : List Char) (st st' : ProcState)
    (line : List Char) (h : processLine bc st line = some st')
    (hs : pbNonneg st.ss.ace) (hm : ∀ e ∈ st.yearly, pbNonneg e.2) :
    pbNonneg st'.ss.ace ∧ ∀ e ∈ st'.yearly, pbNonneg e.2 := by
  by_cases hdup : sliceL line 8 18 = st.lastTime
  · have he : st' = st := processLine_dup_eq bc st st' line h hdup
    rw [he]
    exact ⟨hs, hm⟩
  · obtain ⟨d, hd, rfl⟩ := processLine_kept_eq bc st st' line h hdup
    have hc := processLine_contrib_nonneg bc line d hd
    constructor
    · exact pbNonneg_applyContrib st.ss.ace d.contrib hs hc
    · exact entries_nonneg_applyYearUpd st.yearly d.year d.contrib hm hc

theorem foldProcess_entries_nonneg (bc : List Char)
    (lines : List (List Char)) :
    ∀ (st st' : ProcState), foldProcess bc st lines = some st' →
      pbNonneg st.ss.ace → (∀ e ∈ st.yearly, pbNonneg e.2) →
      pbNonneg st'.ss.ace ∧ ∀ e ∈ st'.yearly, pbNonneg e.2 := by
  induction lines with
  | nil =>
    intro st st' h hs hm
    simp only [foldProcess, Option.some_inj] at h
    rw [← h]
    exact ⟨hs, hm⟩
  | cons l ls ih =>
    intro st st' h hs hm
    simp only [foldProcess] at h
    cases hp : processLine bc st l with
    | none => rw [hp] at h; simp at h
    | some st₁ =>
      rw [hp] at h
      obtain ⟨hs₁, hm₁⟩ := processLine_entries_nonneg bc st st₁ l hp hs hm
      exact ih st₁ st' h hs₁ hm₁

theorem processFile_entries_nonneg (ymap ymap' : YearMap)
    (text : List Char) (ss : StormStats)
    (h : processFile ymap text = some (ss, ymap'))
    (hm : ∀ e ∈ ymap, pbNonneg e.2) :
    pbNonneg ss.ace ∧ ∀ e ∈ ymap', pbNonneg e.2 := by
  simp only [processFile] at h
  by_cases h6 : text.length < 6
  · simp [h6] at h
  · rw [if_neg h6] at h
    cases hf : foldProcess (sliceL text 0 2)
        ⟨[], ⟨sliceL text 0 2 ++ sliceL text 4 6, 0, pbZero⟩, ymap⟩
        (rustLines text) with
    | none => rw [hf] at h; simp at h
    | some st =>
      rw [hf] at h
      simp only [Option.some_inj, Prod.mk.injEq] at h
      obtain ⟨hss, hym⟩ := h
      obtain ⟨h1, h2⟩ := foldProcess_entries_nonneg (sliceL text 0 2)
        (rustLines text) _ st hf pbNonneg_pbZero hm
      rw [← hss, ← hym]
      exact ⟨h1, h2⟩

theorem processFiles_entries_nonneg (files : List (List Char)) :
    ∀ (ymap : YearMap) (stats stats' : List StormStats) (ymap' : YearMap),
      processFiles ymap stats files = some (stats', ymap') →
      (∀ ss ∈ stats, pbNonneg ss.ace) → (∀ e ∈ ymap, pbNonneg e.2) →
      (∀ ss ∈ stats', pbNonneg ss.ace) ∧ ∀ e ∈ ymap', pbNonneg e.2 := by
  induction files with
  | nil =>
    intro ymap stats stats' ymap' h hstats hm
    simp only [processFiles, Option.some_inj, Prod.mk.injEq] at h
    rw [← h.1, ← h.2]
    exact ⟨hstats, hm⟩
  | cons f fs ih =>
    intro ymap stats stats' ymap' h hstats hm
    simp only [processFiles] at h
    cases hp : processFile ymap f with
    | none => rw [hp] at h; simp at h
    | some pr =>
      obtain ⟨ss, m1⟩ := pr
      rw [hp] at h
      obtain ⟨hss, hm1⟩ := processFile_entries_nonneg ymap m1 f ss hp hm
      refine ih m1 (stats ++ [ss]) stats' ymap' h ?_ hm1
      intro s hsmem
      rcases List.mem_append.mp hsmem with hsmem | hsmem
      · exact hstats s hsmem
      · simp at hsmem
        rw [hsmem]
        exact hss

/-- C9 (amended): in exact integer arithmetic every per-basin accumulator
field, in every `StormStats` and every yearly entry, never decreases at a
processing step (each kept contribution is wind squared with wind at least
35, hence nonnegative) and is nonnegative at the end of any run; the Rust
`i32` fields realize these exact values precisely while they remain below
2^31 (`wrap32` is the identity there) — a guarantee that reachable runs
can break, as the overflow counterexample below shows. -/
theorem c9_accumulators_nonneg_monotone :
    (∀ (bc : List Char) (st st' : ProcState) (line : List Char),
        processLine bc st line = some st' →
        pbLe st.ss.ace st'.ss.ace ∧
          ∀ y : Int, pbLe (lookupPB st.yearly y) (lookupPB st'.yearly y)) ∧
    (∀ (bc line : List Char) (d : LineData) (b : Basin) (a : Int),
        lineData bc line = some d → d.contrib = some (b, a) →
        a = windOf line ^ 2 ∧ 35 ≤ windOf line) ∧
    (∀ (files : List (List Char)) (stats : List StormStats)
        (ymap : YearMap),
        process_bdeck_files files = some (stats, ymap) →
        (∀ ss ∈ stats, pbNonneg ss.ace) ∧ ∀ e ∈ ymap, pbNonneg e.2) ∧
    (∀ x : Int, 0 ≤ x → x < 2147483648 → wrap32 x = x) := by
  refine ⟨processLine_mono, ?_, ?_, ?_⟩
  · intro bc line d b a hd hba
    exact lineData_contrib_form bc line d b a hd hba
  · intro files stats ymap h
    exact processFiles_entries_nonneg files [] [] stats ymap h
      (by simp) (by simp)
  · intro x h1 h2
    unfold wrap32
    omega

/-- Witness for C9 on the concrete run over `wFile`: the step from
`wState` is monotone, the final accumulators are nonnegative, and the
in-range value 4225 is realized unchanged by the `i32` field. -/
theorem c9_accumulators_nonneg_monotone_witness :
    pbLe wState.ss.ace wStateOut.ss.ace ∧ pbNonneg wStateOut.ss.ace ∧
      wrap32 4225 = 4225 := by
  refine ⟨?_, ?_, ?_⟩
  · exact (c9_accumulators_nonneg_monotone.1 ['W', 'P'] wState wStateOut
      wLine processLine_wLine).1
  · exact (c9_accumulators_nonneg_monotone.2.2.1 [wFile] [wStateOut.ss]
      wStateOut.yearly process_bdeck_files_wFile).1 wStateOut.ss (by simp)
  · exact c9_accumulators_nonneg_monotone.2.2.2 4225 (by decide) (by decide)

/-! ### Claim C7: dual accumulation and per-storm/per-year totals -/

theorem totPB_append_zero (m : YearMap) (k : Int) :
    totPB (m ++ [(k, pbZero)]) = totPB m := by
  induction m with
  | nil => simp [totPB, pbAdd, pbZero]
  | cons f r ih =>
    rw [List.cons_append]
    show pbAdd f.2 (totPB (r ++ [(k, pbZero)])) = pbAdd f.2 (totPB r)
    rw [ih]

theorem totPB_insertIfAbsent (m : YearMap) (k : Int) :
    totPB (insertIfAbsent m k) = totPB m := by
  unfold insertIfAbsent
  split
  · rfl
  · exact totPB_append_zero m k

theorem totPB_addAceYM (m m' : YearMap) (k : Int) (b : Basin) (a : Int)
    (h : addAceYM m k b a = some m') :
    totPB m' = (totPB m).update_ace b a := by
  induction m generalizing m' with
  | nil => simp [addAceYM] at h
  | cons f r ih =>
    simp only [addAceYM] at h
    by_cases hk : f.1 = k
    · rw [if_pos hk] at h
      simp only [Option.some_inj] at h
      subst h
      cases b <;>
        simp [totPB, pbAdd, PerBasinACE.update_ace] <;> ring
    · rw [if_neg hk] at h
      cases hr : addAceYM r k b a with
      | none => rw [hr] at h; simp at h
      | some m₂ =>
        rw [hr] at h
        simp only [Option.some_inj] at h
        subst h
        rw [show totPB (f :: m₂) = pbAdd f.2 (totPB m₂) from rfl, ih m₂ hr]
        cases b <;>
          simp [totPB, pbAdd, PerBasinACE.update_ace] <;> ring

theorem totPB_applyYearUpd (m : YearMap) (k : Int)
    (c : Option (Basin × Int)) :
    totPB (applyYearUpd m k c) = applyContrib (totPB m) c := by
  cases c with
  | none => exact totPB_insertIfAbsent m k
  | some ba =>
    obtain ⟨b, a⟩ := ba
    obtain ⟨m', hm'⟩ :=
      addAceYM_isSome_of_containsKey (insertIfAbsent m k) k b a
        (containsKey_insertIfAbsent m k)
    simp only [applyYearUpd, hm', Option.getD_some]
    rw [totPB_addAceYM _ _ _ _ _ hm', totPB_insertIfAbsent]
    rfl

theorem pbDeltaEq_rfl (p q : PerBasinACE) : pbDeltaEq p p q q := by
  unfold pbDeltaEq
  omega

theorem pbDeltaEq_applyContrib (p q : PerBasinACE)
    (c : Option (Basin × Int)) :
    pbDeltaEq p (applyContrib p c) q (applyContrib q c) := by
  cases c with
  | none => exact pbDeltaEq_rfl p q
  | some ba =>
    obtain ⟨b, a⟩ := ba
    cases b <;>
      simp [pbDeltaEq, applyContrib, PerBasinACE.update_ace]

/-- One step adds the identical amount to the same basin of the storm's
accumulator and of the fieldwise total of the yearly map. -/
theorem processLine_deltaEq (bc : List Char) (st st' : ProcState)
    (line : List Char) (h : processLine bc st line = some st') :
    pbDeltaEq st.ss.ace st'.ss.ace (totPB st.yearly) (totPB st'.yearly) := by
  by_cases hdup : sliceL line 8 18 = st.lastTime
  · rw [processLine_dup_eq bc st st' line h hdup]
    exact pbDeltaEq_rfl _ _
  · obtain ⟨d, hd, rfl⟩ := processLine_kept_eq bc st st' line h hdup
    show pbDeltaEq st.ss.ace (applyContrib st.ss.ace d.contrib) (totPB st.yearly)
      (totPB (applyYearUpd st.yearly d.year d.contrib))
    rw [totPB_applyYearUpd]
    exact pbDeltaEq_applyContrib st.ss.ace (totPB st.yearly) d.contrib

/-- One step grows the yearly total and the storm total equally. -/
theorem processLine_total (bc : List Char) (st st' : ProcState)
    (line : List Char) (h : processLine bc st line = some st') :
    totalYM st'.yearly + PerBasinACE.sum st.ss.ace =
      totalYM st.yearly + PerBasinACE.sum st'.ss.ace := by
  by_cases hdup : sliceL line 8 18 = st.lastTime
  · rw [processLine_dup_eq bc st st' line h hdup]
  · obtain ⟨d, hd, rfl⟩ := processLine_kept_eq bc st st' line h hdup
    show totalYM (applyYearUpd st.yearly d.year d.contrib) +
        PerBasinACE.sum st.ss.ace =
      totalYM st.yearly + PerBasinACE.sum (applyContrib st.ss.ace d.contrib)
    rw [totalYM_applyYearUpd, sum_applyContrib]
    ring

theorem foldProcess_total (bc : List Char) (lines : List (List Char)) :
    ∀ (st st' : ProcState), foldProcess bc st lines = some st' →
      totalYM st'.yearly + PerBasinACE.sum st.ss.ace =
        totalYM st.yearly + PerBasinACE.sum st'.ss.ace := by
  induction lines with
  | nil =>
    intro st st' h
    simp only [foldProcess, Option.some_inj] at h
    rw [h]
  | cons l ls ih =>
    intro st st' h
    simp only [foldProcess] at h
    cases hp : processLine bc st l with
    | none => rw [hp] at h; simp at h
    | some st₁ =>
      rw [hp] at h
      have h1 := processLine_total bc st st₁ l hp
      have h2 := ih st₁ st' h
      omega

theorem lookupPB_sum_applyYearUpd (m : YearMap) (k : Int)
    (c : Option (Basin × Int)) (y : Int) :
    (lookupPB (applyYearUpd m k c) y).sum =
      (lookupPB m y).sum + (if k = y then contribAmt c else 0) := by
  rw [lookupPB_applyYearUpd]
  by_cases hk : k = y
  · rw [if_pos hk, if_pos hk, sum_applyContrib]
  · rw [if_neg hk, if_neg hk]
    ring

/-- The line loop is insensitive to the incoming yearly map: it succeeds
or fails identically, produces the same storm statistics, and shifts every
year's total by the same amount. -/
theorem foldProcess_indep (bc : List Char) (lines : List (List Char)) :
    ∀ (lt : List Char) (sv : StormStats) (m1 m2 : YearMap),
      (foldProcess bc ⟨lt, sv, m1⟩ lines = none ↔
        foldProcess bc ⟨lt, sv, m2⟩ lines = none) ∧
      (∀ s1 s2, foldProcess bc ⟨lt, sv, m1⟩ lines = some s1 →
        foldProcess bc ⟨lt, sv, m2⟩ lines = some s2 →
        s1.ss = s2.ss ∧
        ∀ y : Int, (lookupPB s1.yearly y).sum + (lookupPB m2 y).sum =
          (lookupPB s2.yearly y).sum + (lookupPB m1 y).sum) := by
  induction lines with
  | nil =>
    intro lt sv m1 m2
    constructor
    · simp [foldProcess]
    · intro s1 s2 h1 h2
      simp only [foldProcess, Option.some_inj] at h1 h2
      subst h1
      subst h2
      refine ⟨rfl, fun y => ?_⟩
      show (lookupPB m1 y).sum + (lookupPB m2 y).sum =
        (lookupPB m2 y).sum + (lookupPB m1 y).sum
      omega
  | cons l ls ih =>
    intro lt sv m1 m2
    by_cases h18 : l.length < 18
    · have e1 : processLine bc ⟨lt, sv, m1⟩ l = none := by
        rw [processLine_eq]
        simp [h18]
      have e2 : processLine bc ⟨lt, sv, m2⟩ l = none := by
        rw [processLine_eq]
        simp [h18]
      constructor
      · simp [foldProcess, e1, e2]
      · intro s1 s2 h1 h2
        simp [foldProcess, e1] at h1
    · by_cases hdup : sliceL l 8 18 = lt
      · have e1 : processLine bc ⟨lt, sv, m1⟩ l = some ⟨lt, sv, m1⟩ :=
          processLine_skip bc ⟨lt, sv, m1⟩ l (Nat.not_lt.mp h18) hdup
        have e2 : processLine bc ⟨lt, sv, m2⟩ l = some ⟨lt, sv, m2⟩ :=
          processLine_skip bc ⟨lt, sv, m2⟩ l (Nat.not_lt.mp h18) hdup
        constructor
        · simp only [foldProcess, e1, e2]
          exact (ih lt sv m1 m2).1
        · intro s1 s2 h1 h2
          simp only [foldProcess, e1, e2] at h1 h2
          exact (ih lt sv m1 m2).2 s1 s2 h1 h2
      · cases hd : lineData bc l with
        | none =>
          have e1 : processLine bc ⟨lt, sv, m1⟩ l = none := by
            rw [processLine_eq]
            simp [h18, hdup, hd]
          have e2 : processLine bc ⟨lt, sv, m2⟩ l = none := by
            rw [processLine_eq]
            simp [h18, hdup, hd]
          constructor
          · simp [foldProcess, e1, e2]
          · intro s1 s2 h1 h2
            simp [foldProcess, e1] at h1
        | some d =>
          have e1 : processLine bc ⟨lt, sv, m1⟩ l =
              some (stepKept ⟨lt, sv, m1⟩ d) := by
            rw [processLine_eq]
            simp [h18, hdup, hd]
          have e2 : processLine bc ⟨lt, sv, m2⟩ l =
              some (stepKept ⟨lt, sv, m2⟩ d) := by
            rw [processLine_eq]
            simp [h18, hdup, hd]
          obtain ⟨iffn, rel⟩ := ih d.time
            ⟨sv.atcf_code,
             if sv.max_wind < d.wind then d.wind else sv.max_wind,
             applyContrib sv.ace d.contrib⟩
            (applyYearUpd m1 d.year d.contrib)
            (applyYearUpd m2 d.year d.contrib)
          constructor
          · simp only [foldProcess, e1, e2]
            exact iffn
          · intro s1 s2 h1 h2
            simp only [foldProcess, e1, e2] at h1 h2
            obtain ⟨hss, hrel⟩ := rel s1 s2 h1 h2
            refine ⟨hss, fun y => ?_⟩
            have k1 := lookupPB_sum_applyYearUpd m1 d.year d.contrib y
            have k2 := lookupPB_sum_applyYearUpd m2 d.year d.contrib y
            have k3 := hrel y
            by_cases hky : d.year = y
            · rw [if_pos hky] at k1 k2
              omega
            · rw [if_neg hky] at k1 k2
              omega

/-- Processing a file on top of any yearly map yields the same storm
statistics as its solo run, and shifts every year's total by the solo
run's amount; the solo total equals the storm's own accumulated energy. -/
theorem processFile_indep (m : YearMap) (text : List Char)
    (ss : StormStats) (m' : YearMap)
    (h : processFile m text = some (ss, m')) :
    ∃ m₀, processFile [] text = some (ss, m₀) ∧
      (∀ y : Int, (lookupPB m' y).sum =
        (lookupPB m y).sum + (lookupPB m₀ y).sum) ∧
      totalYM m₀ = PerBasinACE.sum ss.ace ∧
      totalYM m' = totalYM m + PerBasinACE.sum ss.ace := by
  simp only [processFile] at h ⊢
  by_cases h6 : text.length < 6
  · simp [h6] at h
  · rw [if_neg h6] at h ⊢
    cases hf1 : foldProcess (sliceL text 0 2)
        ⟨[], ⟨sliceL text 0 2 ++ sliceL text 4 6, 0, pbZero⟩, m⟩
        (rustLines text) with
    | none => rw [hf1] at h; simp at h
    | some s1 =>
      rw [hf1] at h
      simp only [Option.some_inj, Prod.mk.injEq] at h
      obtain ⟨hss, hm'⟩ := h
      obtain ⟨iffn, rel⟩ := foldProcess_indep (sliceL text 0 2)
        (rustLines text) []
        ⟨sliceL text 0 2 ++ sliceL text 4 6, 0, pbZero⟩ m []
      cases hf2 : foldProcess (sliceL text 0 2)
          ⟨[], ⟨sliceL text 0 2 ++ sliceL text 4 6, 0, pbZero⟩, []⟩
          (rustLines text) with
      | none =>
        rw [iffn.mpr hf2] at hf1
        simp at hf1
      | some s2 =>
        obtain ⟨hsseq, hrel⟩ := rel s1 s2 hf1 hf2
        refine ⟨s2.yearly, ?_, ?_, ?_, ?_⟩
        · rw [← hss, hsseq]
        · intro y
          have k3 := hrel y
          have hz : (lookupPB ([] : YearMap) y).sum = 0 := by
            simp [lookupPB, pbZero, PerBasinACE.sum, PerBasinACE.to_array]
          rw [← hm']
          omega
        · have htot := foldProcess_total (sliceL text 0 2) (rustLines text)
            ⟨[], ⟨sliceL text 0 2 ++ sliceL text 4 6, 0, pbZero⟩, []⟩ s2 hf2
          have h0 : PerBasinACE.sum
              ((⟨[], ⟨sliceL text 0 2 ++ sliceL text 4 6, 0, pbZero⟩,
                 ([] : YearMap)⟩ : ProcState)).ss.ace = 0 := by
            simp [pbZero, PerBasinACE.sum, PerBasinACE.to_array]
          have h1 : totalYM
              ((⟨[], ⟨sliceL text 0 2 ++ sliceL text 4 6, 0, pbZero⟩,
                 ([] : YearMap)⟩ : ProcState)).yearly = 0 := rfl
          have h2 : PerBasinACE.sum s2.ss.ace = PerBasinACE.sum ss.ace := by
            rw [← hss, hsseq]
          omega
        · have htot := foldProcess_total (sliceL text 0 2) (rustLines text)
            ⟨[], ⟨sliceL text 0 2 ++ sliceL text 4 6, 0, pbZero⟩, m⟩ s1 hf1
          have h0 : PerBasinACE.sum
              ((⟨[], ⟨sliceL text 0 2 ++ sliceL text 4 6, 0, pbZero⟩,
                 m⟩ : ProcState)).ss.ace = 0 := by
            simp [pbZero, PerBasinACE.sum, PerBasinACE.to_array]
          have h1 : totalYM
              ((⟨[], ⟨sliceL text 0 2 ++ sliceL text 4 6, 0, pbZero⟩,
                 m⟩ : ProcState)).yearly = totalYM m := rfl
          have h2 : PerBasinACE.sum s1.ss.ace = PerBasinACE.sum ss.ace := by
            rw [← hss]
          have h3 : totalYM s1.yearly = totalYM m' := by rw [hm']
          omega

/-- The file loop accumulates every year's total and the grand total as
the sum of the files' solo contributions, and the grand total equals the
sum of the produced storms' own totals. -/
theorem processFiles_spec (files : List (List Char)) :
    ∀ (ymap : YearMap) (stats stats' : List StormStats) (ymap' : YearMap),
      processFiles ymap stats files = some (stats', ymap') →
      (∀ y : Int, (lookupPB ymap' y).sum = (lookupPB ymap y).sum +
        (files.map fun f => stormContribution f y).sum) ∧
      totalYM ymap' = totalYM ymap + (files.map stormTotal).sum ∧
      (stats'.map fun s => PerBasinACE.sum s.ace).sum =
        (stats.map fun s => PerBasinACE.sum s.ace).sum +
          (files.map stormTotal).sum := by
  induction files with
  | nil =>
    intro ymap stats stats' ymap' h
    simp only [processFiles, Option.some_inj, Prod.mk.injEq] at h
    obtain ⟨h1, h2⟩ := h
    subst h1
    subst h2
    simp
  | cons f fs ih =>
    intro ymap stats stats' ymap' h
    simp only [processFiles] at h
    cases hp : processFile ymap f with
    | none => rw [hp] at h; simp at h
    | some pr =>
      obtain ⟨ss, m1⟩ := pr
      rw [hp] at h
      obtain ⟨m₀, hm₀, hrel, htot0, htot1⟩ := processFile_indep ymap f ss m1 hp
      have hcontrib : ∀ y : Int, stormContribution f y = (lookupPB m₀ y).sum := by
        intro y
        unfold stormContribution
        rw [hm₀]
      have hstormTot : stormTotal f = PerBasinACE.sum ss.ace := by
        unfold stormTotal
        rw [hm₀]
        exact htot0
      obtain ⟨ih1, ih2, ih3⟩ := ih m1 (stats ++ [ss]) stats' ymap' h
      refine ⟨?_, ?_, ?_⟩
      · intro y
        rw [ih1 y, hrel y, List.map_cons, List.sum_cons, hcontrib y]
        ring
      · rw [ih2, htot1, List.map_cons, List.sum_cons, hstormTot]
        ring
      · rw [ih3, List.map_cons, List.sum_cons, hstormTot]
        simp only [List.map_append, List.sum_append, List.map_cons,
          List.map_nil, List.sum_cons, List.sum_nil]
        ring

/-- C7: each successful step adds the identical amount to the same basin
of the storm's accumulator and of the yearly map; over a whole run from an
empty map, every year's total is the sum of the files' solo contributions
to that year, and the grand yearly total equals the sum over storms of
their own per-basin totals. -/
theorem c7_dual_accumulation :
    (∀ (bc : List Char) (st st' : ProcState) (line : List Char),
        processLine bc st line = some st' →
        pbDeltaEq st.ss.ace st'.ss.ace (totPB st.yearly)
          (totPB st'.yearly)) ∧
    (∀ (files : List (List Char)) (stats : List StormStats)
        (ymap : YearMap),
        process_bdeck_files files = some (stats, ymap) →
        (∀ y : Int, (lookupPB ymap y).sum =
          (files.map fun f => stormContribution f y).sum) ∧
        totalYM ymap = (stats.map fun s => PerBasinACE.sum s.ace).sum) := by
  refine ⟨processLine_deltaEq, ?_⟩
  intro files stats ymap h
  obtain ⟨h1, h2, h3⟩ := processFiles_spec files [] [] stats ymap h
  constructor
  · intro y
    have hz : (lookupPB ([] : YearMap) y).sum = 0 := by
      simp [lookupPB, pbZero, PerBasinACE.sum, PerBasinACE.to_array]
    rw [h1 y, hz]
    ring
  · rw [h2, h3]
    simp [totalYM]

/-- Witness for C7 on the concrete run over `wFile`: the per-line delta
equality at `wLine`, the 2023 contribution identity, and the grand-total
identity. -/
theorem c7_dual_accumulation_witness :
    pbDeltaEq wState.ss.ace wStateOut.ss.ace (totPB wState.yearly)
      (totPB wStateOut.yearly) ∧
    (lookupPB wStateOut.yearly 2023).sum =
      ([wFile].map fun f => stormContribution f 2023).sum ∧
    totalYM wStateOut.yearly =
      ([wStateOut.ss].map fun s => PerBasinACE.sum s.ace).sum := by
  refine ⟨?_, ?_, ?_⟩
  · exact c7_dual_accumulation.1 ['W', 'P'] wState wStateOut wLine
      processLine_wLine
  · exact (c7_dual_accumulation.2 [wFile] [wStateOut.ss] wStateOut.yearly
      process_bdeck_files_wFile).1 2023
  · exact (c7_dual_accumulation.2 [wFile] [wStateOut.ss] wStateOut.yearly
      process_bdeck_files_wFile).2

/-! ### The i32 overflow refuting the original C9

During processing the accumulator fields are only ever written (the `+=`
of `update_ace`), never read, so a release-build run performs exactly the
additions recorded by the exact model, each wrapped by the `i32`
hardware.  22 one-line maximal-wind files (identical content, e.g. copies
of one advisory) put 22 × 9998² = 2199120088 > `i32::MAX` into the 2023
west-Pacific entry, whose `i32` value is then negative. -/

theorem lineData_wLine9998_raw :
    lineData ['W', 'P'] wLine9998 =
      some ⟨wTime, 9998, 2023,
        some (get_basin ((150 : ℚ) / 10) ((1400 : ℚ) / 10), 9998 ^ 2)⟩ := by
  rfl

/-- The maximal-wind line extracts wind 9998 and a WPAC contribution of
9998² = 99960004 for year 2023. -/
theorem lineData_wLine9998 :
    lineData ['W', 'P'] wLine9998 =
      some ⟨wTime, 9998, 2023, some (Basin.WPAC, 99960004)⟩ := by
  have e1 : (150 : ℚ) / 10 = 15 := by norm_num
  have e2 : (1400 : ℚ) / 10 = 140 := by norm_num
  rw [lineData_wLine9998_raw, e1, e2]
  decide

/-- Processing one `wFile9998` on top of any yearly map yields `ss9998`
and bumps the map's 2023 entry by 99960004 in WPAC. -/
theorem processFile_wFile9998 (m : YearMap) :
    processFile m wFile9998 =
      some (ss9998, applyYearUpd m 2023 (some (Basin.WPAC, 99960004))) := by
  have h2 : ¬ sliceL wLine9998 8 18 = ([] : List Char) := by decide
  have hpl : processLine ['W', 'P']
      ⟨[], ⟨['W', 'P', '0', '1'], 0, pbZero⟩, m⟩ wLine9998 =
      some (stepKept ⟨[], ⟨['W', 'P', '0', '1'], 0, pbZero⟩, m⟩
        ⟨wTime, 9998, 2023, some (Basin.WPAC, 99960004)⟩) := by
    rw [processLine_eq]
    simp [show ¬ wLine9998.length < 18 from by decide, h2, lineData_wLine9998]
  show (match foldProcess ['W', 'P']
      ⟨[], ⟨['W', 'P', '0', '1'], 0, pbZero⟩, m⟩ (rustLines wFile9998) with
    | none => none
    | some st => some (st.ss, st.yearly)) =
    some (ss9998, applyYearUpd m 2023 (some (Basin.WPAC, 99960004)))
  rw [show rustLines wFile9998 = [wLine9998] from by decide]
  simp only [foldProcess, hpl]
  rfl

/-- Exact run over 22 maximal-wind files: the 2023 WPAC total reaches
22 × 99960004 = 2199120088, beyond `i32::MAX` = 2147483647. -/
theorem process_bdeck_files_wFile9998 :
    process_bdeck_files (List.replicate 22 wFile9998) =
      some (List.replicate 22 ss9998,
        [(2023, ⟨2199120088, 0, 0, 0, 0⟩)]) := by
  show processFiles [] [] (wFile9998 :: List.replicate 21 wFile9998) = _
  simp only [processFiles, processFile_wFile9998]
  decide

set_option maxRecDepth 4000 in
/-- Counterexample to C9 as originally stated: over 22 one-line
maximal-wind files the run performs 22 additions of 99960004 into the
WPAC field of the 2023 yearly entry (exact total 2199120088), and the
release-mode `i32` value of that field after exactly those updates —
`update_ace32` wraps like the Rust `+=` — is negative (it equals the wrap
of the exact total, the 21 intermediate values being still in range).  A
debug build panics at the 22nd addition instead. -/
theorem c9_counterexample_i32_overflow :
    process_bdeck_files (List.replicate 22 wFile9998) =
        some (List.replicate 22 ss9998,
          [(2023, ⟨2199120088, 0, 0, 0, 0⟩)]) ∧
      (Nat.iterate (fun q => PerBasinACE.update_ace32 q Basin.WPAC 99960004)
          22 pbZero).wpac < 0 ∧
      (Nat.iterate (fun q => PerBasinACE.update_ace32 q Basin.WPAC 99960004)
          22 pbZero).wpac = wrap32 2199120088 := by
  refine ⟨process_bdeck_files_wFile9998, by decide, by decide⟩

end Acecal
